import Mathlib

/-!
The dimension registry of the classic netCDF library (`libsrc/dim.c`).

A shallow embedding of `dim.c`: the dimension array `NC_dimarray` with its name
index, its append, lookup, duplication and teardown, and the four dataset-facing
operations `NC3_def_dim`, `NC3_inq_dimid`, `NC3_inq_dim` and `NC3_rename_dim`.

Conventions of the embedding.

* A C string is the list of its bytes, without the terminating NUL.
* A pointer that may be `NULL` is an `Option`; an out-parameter is returned as
  an `Option` that is `none` when the function did not write it.
* `size_t` values are natural numbers; `int` and `long` values are integers.
  The narrowing casts written in the source are the explicit functions
  `castInt` and `castSizeT`.
* A function that mutates the dataset returns the dataset after the call.
* Whether an allocation succeeds is an input of the call that performs it
  (`Alloc`).
* Functions of the library that `dim.c` calls but does not define (handle
  resolution, name checking, normalisation, synchronisation) are the fields of
  an environment `Env`; the name buffer and the name index are modelled from
  the specification.
-/

namespace NCDim

/-! ## Constants -/

/-- Bytes of a C string, the terminating NUL excluded. -/
abbrev CString := List Nat

/-- Modelled from the spec: the status of a call that did not fail. The status
codes are macros of the public header, which is not among the sources; the
values are those of that header. -/
def NC_NOERR : Int := 0
/-- Modelled from the spec: status of an invalid dataset handle. -/
def NC_EBADID : Int := -33
/-- Modelled from the spec: `Permission`. -/
def NC_EPERM : Int := -37
/-- Modelled from the spec: `NotInDefinition`. The in-place rewrite of a name
buffer reports the same status as its capacity error. -/
def NC_ENOTINDEFINE : Int := -38
/-- Modelled from the spec: `TooManyEntities`. -/
def NC_EMAXDIMS : Int := -41
/-- Modelled from the spec: `NameInUse`. -/
def NC_ENAMEINUSE : Int := -42
/-- Modelled from the spec: `NotFound` as reported to the caller. -/
def NC_EBADDIM : Int := -46
/-- Modelled from the spec: `AlreadyHasUnbounded`. -/
def NC_EUNLIMIT : Int := -54
/-- Modelled from the spec: `EncodingError`, the status normalisation reports
for text that is not valid UTF-8. -/
def NC_EBADNAME : Int := -59
/-- Modelled from the spec: `OutOfMemory`. -/
def NC_ENOMEM : Int := -61
/-- Modelled from the spec: `SizeOutOfRange`. -/
def NC_EDIMSIZE : Int := -63

/-- Modelled from the spec: the sentinel size of the unbounded entity, a macro
of the public header. -/
def NC_UNLIMITED : Nat := 0
/-- Modelled from the spec: the fixed growth increment of the array, a macro of
the internal header. -/
def NC_ARRAY_GROWBY : Nat := 4
/-- Modelled from the spec: the fixed maximum entity count, a macro of the
public header. -/
def NC_MAX_DIMS : Nat := 1024
/-- Modelled from the spec: format flag of the 64-bit-data variant. -/
def NC_64BIT_DATA : Nat := 0x0020
/-- Modelled from the spec: format flag of the 64-bit-offset variant. -/
def NC_64BIT_OFFSET : Nat := 0x0200
/-- Modelled from the spec: format maximum of the 32-bit variant, `2^31 - 1`. -/
def X_INT_MAX : Nat := 2147483647
/-- Modelled from the spec: format maximum of the 64-bit-offset variant,
`2^32 - 1`. -/
def X_UINT_MAX : Nat := 4294967295
/-- Modelled from the spec: format maximum of the 64-bit-data variant,
`2^64 - 1`. -/
def X_UINT64_MAX : Nat := 18446744073709551615
/-- Modelled from the spec: `sizeof(size_t)` on a platform with a 64-bit
`size_t`. -/
def sizeof_size_t : Nat := 8

/-- The cast `(int)x` of a `long` or `size_t` value: reduction modulo `2^32`
into the signed range. -/
def castInt (x : Int) : Int := (x + 2147483648) % 4294967296 - 2147483648

/-- The cast `(size_t)x` of an `int`: reduction modulo `2^64`. -/
def castSizeT (x : Int) : Nat := (x % 18446744073709551616).toNat

/-! ## Data model -/

/-- Modelled from the spec: the Name Buffer, `nchars` the allocated length and
`cp` the text held. -/
structure NC_string where
  nchars : Nat
  cp : CString
deriving DecidableEq

/-- The entity `NC_dim`: a name buffer and a size. -/
structure NC_dim where
  name : NC_string
  size : Nat
deriving DecidableEq

/-- Modelled from the spec: the name index, a mapping from name to position,
kept as an association list. -/
abbrev NC_hashmap := List (CString × Int)

/-- The registry `NC_dimarray`. `value` lists the entities of the slots in use,
so the element count `nelems` of the source is its length; `nalloc` is the
number of allocated slots. -/
structure NC_dimarray where
  nalloc : Nat
  hashmap : NC_hashmap
  value : List NC_dim
deriving DecidableEq

/-- The element count `ncap->nelems`. -/
def NC_dimarray.nelems (ncap : NC_dimarray) : Nat := ncap.value.length

/-- The dataset state `NC3_INFO`, as far as `dim.c` reads or writes it. The
format bits live in `flags`; the phase, permission and synchronisation queries
are modelled from the spec as Boolean fields. -/
structure NC3_INFO where
  flags : Nat
  indef : Bool
  readonly : Bool
  hsync : Bool
  hdirty : Bool
  numrecs : Nat
  dims : NC_dimarray
deriving DecidableEq

/-- Outcome of the allocations one call may perform: `true` when the allocator
returns memory. `string` is the name buffer, `dim` the entity, `array` the slot
array. -/
structure Alloc where
  string : Bool
  dim : Bool
  array : Bool
deriving DecidableEq

/-- The external collaborators of `dim.c`. -/
structure Env where
  /-- Handle resolution: the status for a handle; a valid handle resolves to the
  dataset state the operation is given. -/
  NC_check_id : Int → Int
  /-- The general naming rules. -/
  NC_check_name : CString → Int
  /-- Text normalisation: a status and, when it is `NC_NOERR`, the canonical
  form. -/
  nc_utf8_normalize : CString → Int × CString
  /-- Synchronisation of the header with storage: its status. Synchronisation
  writes to storage and does not touch the registry, so the dataset is the same
  after it. -/
  NC_sync : NC3_INFO → Int

/-- Modelled from the spec: `isDefinitionPhase`. -/
def NC_indef (ncp : NC3_INFO) : Bool := ncp.indef
/-- Modelled from the spec: `isReadOnly`. -/
def NC_readonly (ncp : NC3_INFO) : Bool := ncp.readonly
/-- Modelled from the spec: the synchronisation policy demands an immediate
flush of the header. -/
def NC_doHsync (ncp : NC3_INFO) : Bool := ncp.hsync
/-- Modelled from the spec: `markMetadataDirty`. -/
def set_NC_hdirty (ncp : NC3_INFO) : NC3_INFO := { ncp with hdirty := true }
/-- Modelled from the spec: the dataset's current live record count. -/
def NC_get_numrecs (ncp : NC3_INFO) : Nat := ncp.numrecs

/-! ## Name buffer -/

/-- Modelled from the spec: `create` of a Name Buffer, the first `slen` bytes of
`str` in a buffer of allocated length `slen`; `NULL` when allocation fails. -/
def new_NC_string (ok : Bool) (slen : Nat) (str : CString) : Option NC_string :=
  if ok then some { nchars := slen, cp := str.take slen } else none

/-- Modelled from the spec: the in-place rewrite of a Name Buffer. It fails
with the capacity error when the new text is longer than the allocated length
and otherwise overwrites the text, the allocated length staying as it was. -/
def set_NC_string (ncstrp : NC_string) (str : CString) : Int × NC_string :=
  if ncstrp.nchars < str.length then (NC_ENOTINDEFINE, ncstrp)
  else (NC_NOERR, { ncstrp with cp := str })

/-! ## Name index -/

/-- Modelled from the spec: `create(hint)` of the name index. -/
def NC_hashmapCreate (_startsize : Nat) : NC_hashmap := []

/-- Modelled from the spec: `remove(index, name)`. -/
def NC_hashmapRemoveDim (hash : NC_hashmap) (name : CString) : NC_hashmap :=
  hash.filter (fun e => e.1 != name)

/-- Modelled from the spec: `insert(index, position, name)`; the index is a
mapping, so a mapping already held for `name` is replaced. -/
def NC_hashmapAddDim (hash : NC_hashmap) (data : Int) (name : CString) : NC_hashmap :=
  (name, data) :: NC_hashmapRemoveDim hash name

/-- Modelled from the spec: `lookup(index, name)`, the position or `-1`. -/
def NC_hashmapGetDim (hash : NC_hashmap) (name : CString) : Int :=
  match hash.find? (fun e => e.1 == name) with
  | some e => e.2
  | none => -1

/-! ## Entities -/

/-- `new_x_NC_dim`: an entity owning `name`, of size `0`. -/
def new_x_NC_dim (ok : Bool) (name : NC_string) : Option NC_dim :=
  if !ok then none
  else some { name := name, size := 0 }

/-- `new_NC_dim`: normalise `uname`, build the name buffer and the entity. -/
def new_NC_dim (E : Env) (A : Alloc) (uname : CString) (size : Nat) : Option NC_dim :=
  let (stat, name) := E.nc_utf8_normalize uname
  if stat ≠ NC_NOERR then none
  else
    match new_NC_string A.string name.length name with
    | none => none
    | some strp =>
      match new_x_NC_dim A.dim strp with
      | none => none
      | some dimp => some { dimp with size := size }

/-- `dup_NC_dim`: a new entity built from the name text and the size of `dimp`. -/
def dup_NC_dim (E : Env) (A : Alloc) (dimp : NC_dim) : Option NC_dim :=
  new_NC_dim E A dimp.name.cp dimp.size

/-! ## Registry -/

/-- The loop of `find_NC_Udim`: advance `dimid` and `loc` while the entity at
`loc` is bounded; the result is the final `dimid`. -/
def find_NC_Udim.scan : List NC_dim → Nat → Nat
  | [], dimid => dimid
  | d :: loc, dimid =>
    if d.size ≠ NC_UNLIMITED then find_NC_Udim.scan loc (dimid + 1) else dimid

/-- `find_NC_Udim`: the position of the unbounded entity or `-1`, and the value
written to `*dimpp`. -/
def find_NC_Udim (ncap : NC_dimarray) : Int × Option NC_dim :=
  if ncap.nelems = 0 then (-1, none)
  else
    let dimid := find_NC_Udim.scan ncap.value 0
    if dimid ≥ ncap.nelems then (-1, none)
    else ((dimid : Int), ncap.value[dimid]?)

/-- `NC_finddim`: the value returned and the value written to `*dimpp`. -/
def NC_finddim (E : Env) (ncap : NC_dimarray) (uname : CString) : Int × Option NC_dim :=
  if ncap.nelems = 0 then (-1, none)
  else
    let (stat, name) := E.nc_utf8_normalize uname
    if stat ≠ NC_NOERR then (stat, none)
    else
      let dimid := castInt (NC_hashmapGetDim ncap.hashmap name)
      if dimid ≥ 0 then (dimid, ncap.value[dimid.toNat]?)
      else (dimid, none)

/-- `free_NC_dimarrayV0`: free the entities and set the count to zero; the slot
array stays allocated. -/
def free_NC_dimarrayV0 (ncap : NC_dimarray) : NC_dimarray :=
  if ncap.nelems = 0 then ncap
  else { ncap with value := [] }

/-- `free_NC_dimarrayV`: nothing when no slot is allocated; otherwise delete the
name index, free the entities and the slot array. -/
def free_NC_dimarrayV (ncap : NC_dimarray) : NC_dimarray :=
  if ncap.nalloc = 0 then ncap
  else { free_NC_dimarrayV0 { ncap with hashmap := [] } with nalloc := 0 }

/-- The copying loop of `dup_NC_dimarrayV`: `drpp` are the entities of `ref` still
to copy, `done` the copies stored so far (their number is the count of `ncap`),
`i` the index of the next copy and `A i` the outcome of its allocations. The
result is the status and the copies stored when the loop ends. -/
def dup_NC_dimarrayV.copy (E : Env) (A : Nat → Alloc) :
    List NC_dim → Nat → List NC_dim → Int × List NC_dim
  | [], _, done => (NC_NOERR, done)
  | d :: drpp, i, done =>
    match dup_NC_dim E (A i) d with
    | none => (NC_ENOMEM, done)
    | some e => dup_NC_dimarrayV.copy E A drpp (i + 1) (done ++ [e])

/-- `dup_NC_dimarrayV`: fill `ncap` with copies of the entities of `ref`; the
status and `ncap` after the call. `arrayOk` is the outcome of the allocation of
the slot array. When that allocation fails the source returns at once: the
count, the capacity and the name index of `ncap` are as they were (the count is
reset only further down), and so they are here. The source has then overwritten
the pointer `ncap->value` with `NULL`; a registry whose count is not zero while
its slot array is null has no counterpart in `NC_dimarray`, whose `value` lists
the entities the count stands for. The name index of `ncap` is not touched on
success. -/
def dup_NC_dimarrayV (E : Env) (arrayOk : Bool) (A : Nat → Alloc)
    (ncap ref : NC_dimarray) : Int × NC_dimarray :=
  if ref.nelems ≠ 0 ∧ arrayOk = false then (NC_ENOMEM, ncap)
  else
    let ncap1 := if ref.nelems ≠ 0 then { ncap with nalloc := ref.nelems } else ncap
    let r := dup_NC_dimarrayV.copy E A ref.value 0 []
    let ncap2 := { ncap1 with value := r.2 }
    if r.1 ≠ NC_NOERR then (r.1, free_NC_dimarrayV ncap2)
    else (NC_NOERR, ncap2)

/-- The tail of `incr_NC_dimarray`: enter the new entity in the name index and
store it in the slot `nelems`. -/
def incr_NC_dimarray.store (ncap : NC_dimarray) (newelemp : Option NC_dim) : NC_dimarray :=
  match newelemp with
  | none => ncap
  | some e =>
    { ncap with
      hashmap := NC_hashmapAddDim ncap.hashmap (ncap.nelems : Int) e.name.cp
      value := ncap.value ++ [e] }

/-- `incr_NC_dimarray`: append `newelemp`, growing the array by
`NC_ARRAY_GROWBY` slots when it is unallocated or full. The source asserts
`nelems == 0` in the unallocated case. -/
def incr_NC_dimarray (arrayOk : Bool) (ncap : NC_dimarray) (newelemp : Option NC_dim) :
    Int × NC_dimarray :=
  if ncap.nalloc = 0 then
    if arrayOk = false then (NC_ENOMEM, ncap)
    else
      (NC_NOERR, incr_NC_dimarray.store
        { ncap with nalloc := NC_ARRAY_GROWBY, hashmap := NC_hashmapCreate 0 } newelemp)
  else if ncap.nelems + 1 > ncap.nalloc then
    if arrayOk = false then (NC_ENOMEM, ncap)
    else
      (NC_NOERR, incr_NC_dimarray.store
        { ncap with nalloc := ncap.nalloc + NC_ARRAY_GROWBY } newelemp)
  else (NC_NOERR, incr_NC_dimarray.store ncap newelemp)

/-- What a read of one slot of the slot array `ncap->value` yields: the entity
held there when the slot is in use; when the index is not below the count the
read is out of range and yields nothing defined. -/
inductive Slot where
  | entity (d : NC_dim)
  | outOfRange
deriving DecidableEq

/-- The array read `ncap->value[i]`. -/
def NC_dimarray.slot (ncap : NC_dimarray) (i : Nat) : Slot :=
  match ncap.value[i]? with
  | some d => .entity d
  | none => .outOfRange

/-- The array read of `elem_NC_dimarray`: `none` when the function returns
`NULL` without reading the array, `some s` when it passes the bounds check,
reads the slot `elem` and returns what the read `s` yields. -/
def elem_NC_dimarray.read (ncap : NC_dimarray) (elem : Nat) : Option Slot :=
  if ncap.nelems = 0 ∨ elem ≥ ncap.nelems then none
  else some (ncap.slot elem)

/-- `elem_NC_dimarray`: bounds-checked access, the pointer returned. The pointer
an out-of-range read would yield is indeterminate; it is shown as `NULL`. -/
def elem_NC_dimarray (ncap : NC_dimarray) (elem : Nat) : Option NC_dim :=
  match elem_NC_dimarray.read ncap elem with
  | none => none
  | some (.entity d) => some d
  | some .outOfRange => none

/-! ## Dataset-facing operations -/

/-- The size test of `NC3_def_dim`: `true` when `size` exceeds the bound of the
format variant selected by `flags`. -/
def dimsize_exceeds (flags : Nat) (size : Nat) : Bool :=
  if flags &&& NC_64BIT_DATA ≠ 0 then
    decide (sizeof_size_t > 4) && decide (size > X_UINT64_MAX - 3)
  else if flags &&& NC_64BIT_OFFSET ≠ 0 then
    decide (sizeof_size_t > 4) && decide (size > X_UINT_MAX - 3)
  else decide (size > X_INT_MAX - 3)

/-- `NC3_def_dim`: the status, the value written to `*dimidp` and the dataset
after the call. -/
def NC3_def_dim (E : Env) (A : Alloc) (ncp : NC3_INFO) (ncid : Int) (name : CString)
    (size : Nat) : Int × Option Int × NC3_INFO :=
  let status := E.NC_check_id ncid
  if status ≠ NC_NOERR then (status, none, ncp)
  else if NC_indef ncp = false then (NC_ENOTINDEFINE, none, ncp)
  else
    let status := E.NC_check_name name
    if status ≠ NC_NOERR then (status, none, ncp)
    else if dimsize_exceeds ncp.flags size then (NC_EDIMSIZE, none, ncp)
    else if size = NC_UNLIMITED ∧ (find_NC_Udim ncp.dims).1 ≠ -1 then (NC_EUNLIMIT, none, ncp)
    else if ncp.dims.nelems ≥ NC_MAX_DIMS then (NC_EMAXDIMS, none, ncp)
    else if (NC_finddim E ncp.dims name).1 ≠ -1 then (NC_ENAMEINUSE, none, ncp)
    else
      match new_NC_dim E A name size with
      | none => (NC_ENOMEM, none, ncp)
      | some dimp =>
        let (status, dims) := incr_NC_dimarray A.array ncp.dims (some dimp)
        if status ≠ NC_NOERR then (status, none, { ncp with dims := dims })
        else (NC_NOERR, some (castInt dims.nelems - 1), { ncp with dims := dims })

/-- `NC3_inq_dimid`: the status and the value written to `*dimid_ptr`. -/
def NC3_inq_dimid (E : Env) (ncp : NC3_INFO) (ncid : Int) (name : CString) :
    Int × Option Int :=
  let status := E.NC_check_id ncid
  if status ≠ NC_NOERR then (status, none)
  else
    let dimid := (NC_finddim E ncp.dims name).1
    if dimid = -1 then (NC_EBADDIM, none)
    else (NC_NOERR, some dimid)

/-- `NC3_inq_dim`: the status, the text written to `name` and the value written
to `*sizep`. -/
def NC3_inq_dim (E : Env) (ncp : NC3_INFO) (ncid : Int) (dimid : Int) :
    Int × Option CString × Option Nat :=
  let status := E.NC_check_id ncid
  if status ≠ NC_NOERR then (status, none, none)
  else
    match elem_NC_dimarray ncp.dims (castSizeT dimid) with
    | none => (NC_EBADDIM, none, none)
    | some dimp =>
      (NC_NOERR, some (dimp.name.cp.take dimp.name.nchars),
        some (if dimp.size = NC_UNLIMITED then NC_get_numrecs ncp else dimp.size))

/-- `NC3_rename_dim`: the status and the dataset after the call. -/
def NC3_rename_dim (E : Env) (A : Alloc) (ncp : NC3_INFO) (ncid : Int) (dimid : Int)
    (unewname : CString) : Int × NC3_INFO :=
  let status := E.NC_check_id ncid
  if status ≠ NC_NOERR then (status, ncp)
  else if NC_readonly ncp then (NC_EPERM, ncp)
  else
    let status := E.NC_check_name unewname
    if status ≠ NC_NOERR then (status, ncp)
    else if (NC_finddim E ncp.dims unewname).1 ≠ -1 then (NC_ENAMEINUSE, ncp)
    else
      match elem_NC_dimarray ncp.dims (castSizeT dimid) with
      | none => (NC_EBADDIM, ncp)
      | some dimp =>
        let old := dimp.name
        let (status, newname) := E.nc_utf8_normalize unewname
        if status ≠ NC_NOERR then (status, ncp)
        else if NC_indef ncp then
          match new_NC_string A.string newname.length newname with
          | none => (NC_ENOMEM, ncp)
          | some newStr =>
            let hash := NC_hashmapRemoveDim ncp.dims.hashmap old.cp
            let value := ncp.dims.value.set (castSizeT dimid) { dimp with name := newStr }
            let hash := NC_hashmapAddDim hash dimid newStr.cp
            (NC_NOERR, { ncp with dims := { ncp.dims with hashmap := hash, value := value } })
        else
          let hash := NC_hashmapRemoveDim ncp.dims.hashmap old.cp
          let (status, str) := set_NC_string dimp.name newname
          if status ≠ NC_NOERR then
            (status, { ncp with dims := { ncp.dims with hashmap := hash } })
          else
            let value := ncp.dims.value.set (castSizeT dimid) { dimp with name := str }
            let hash := NC_hashmapAddDim hash dimid str.cp
            let ncp := set_NC_hdirty
              { ncp with dims := { ncp.dims with hashmap := hash, value := value } }
            if NC_doHsync ncp then
              let status := E.NC_sync ncp
              if status ≠ NC_NOERR then (status, ncp)
              else (NC_NOERR, ncp)
            else (NC_NOERR, ncp)

/-! ## Histories of calls -/

/-- The registry before any entity is defined: nothing allocated. -/
def emptyDims : NC_dimarray := { nalloc := 0, hashmap := [], value := [] }

/-- A freshly created dataset of the format variant `flags`: in definition
phase, writable, with an empty registry. -/
def newDataset (flags : Nat) : NC3_INFO :=
  { flags := flags, indef := true, readonly := false, hsync := false, hdirty := false,
    numrecs := 0, dims := emptyDims }

/-- One step of a history of a dataset: a define, a rename, or a change of the
dataset state outside the registry (leaving or entering the definition phase,
reopening with another permission, records being written). -/
inductive Call where
  | def_dim (A : Alloc) (ncid : Int) (name : CString) (size : Nat)
  | rename_dim (A : Alloc) (ncid : Int) (dimid : Int) (unewname : CString)
  | external (indef readonly hsync : Bool) (numrecs : Nat)
deriving DecidableEq

/-- The status of one step and the dataset after it. -/
def Call.apply (E : Env) (ncp : NC3_INFO) : Call → Int × NC3_INFO
  | .def_dim A ncid name size =>
    let r := NC3_def_dim E A ncp ncid name size
    (r.1, r.2.2)
  | .rename_dim A ncid dimid unewname => NC3_rename_dim E A ncp ncid dimid unewname
  | .external indef readonly hsync numrecs =>
    (NC_NOERR, { ncp with indef := indef, readonly := readonly, hsync := hsync,
                          numrecs := numrecs })

/-- Run a history: the statuses of its steps, in order, and the final dataset. -/
def runCalls (E : Env) : NC3_INFO → List Call → List Int × NC3_INFO
  | ncp, [] => ([], ncp)
  | ncp, c :: cs =>
    let r := c.apply E ncp
    let rest := runCalls E r.2 cs
    (r.1 :: rest.1, rest.2)

/-- The arguments of one define call. -/
structure DefCall where
  A : Alloc
  ncid : Int
  name : CString
  size : Nat
deriving DecidableEq

/-- Run a sequence of define calls: for each call its status and the position
it wrote, and the final dataset. -/
def defineAll (E : Env) : NC3_INFO → List DefCall → List (Int × Option Int) × NC3_INFO
  | ncp, [] => ([], ncp)
  | ncp, c :: cs =>
    let r := NC3_def_dim E c.A ncp c.ncid c.name c.size
    let rest := defineAll E r.2.2 cs
    ((r.1, r.2.1) :: rest.1, rest.2)

/-! ## A sample environment -/

/-- A sample normaliser: a name of ASCII bytes is its own canonical form, any
other name is rejected with the encoding error. -/
def sampleNormalize (uname : CString) : Int × CString :=
  if uname.all (fun b => decide (0 < b ∧ b < 128)) then (NC_NOERR, uname)
  else (NC_EBADNAME, [])

/-- A sample of the naming rules: a non-empty name of at most 256 printable
ASCII bytes without a slash. -/
def sampleCheckName (name : CString) : Int :=
  if name ≠ [] ∧ name.length ≤ 256 ∧ name.all (fun b => decide (32 ≤ b ∧ b < 127 ∧ b ≠ 47))
  then NC_NOERR else NC_EBADNAME

/-- A sample environment: handle `0` is the only valid one and synchronisation
succeeds. -/
def sampleEnv : Env :=
  { NC_check_id := fun ncid => if ncid = 0 then NC_NOERR else NC_EBADID
    NC_check_name := sampleCheckName
    nc_utf8_normalize := sampleNormalize
    NC_sync := fun _ => NC_NOERR }

/-- Every allocation succeeds. -/
def allocOk : Alloc := { string := true, dim := true, array := true }

/-! ## Invariants of the data model -/

/-- The mappings the name index must hold for the entities `value`, starting at
position `i`: each canonical name with its position. -/
def indexOf : List NC_dim → Nat → List (CString × Int)
  | [], _ => []
  | d :: ds, i => (d.name.cp, (i : Int)) :: indexOf ds (i + 1)

/-- The invariants of the registry: the count is within the capacity and within
the fixed maximum, the name index holds exactly the mappings of `indexOf` (in
any order), canonical names are pairwise distinct, and every name fits its
buffer. -/
structure Inv (ncap : NC_dimarray) : Prop where
  cap : ncap.nelems ≤ ncap.nalloc
  max : ncap.nelems ≤ NC_MAX_DIMS
  index : ncap.hashmap.Perm (indexOf ncap.value 0)
  names : (ncap.value.map (fun d => d.name.cp)).Nodup
  fits : ∀ d ∈ ncap.value, d.name.cp.length ≤ d.name.nchars

/-- The number of entities of unbounded size. -/
def countUnlimited (ncap : NC_dimarray) : Nat :=
  ncap.value.countP (fun d => d.size == NC_UNLIMITED)

/-- The values of the C type `int`. -/
def isInt (x : Int) : Prop := -2147483648 ≤ x ∧ x < 2147483648

instance (x : Int) : Decidable (isInt x) := by unfold isInt; infer_instance

/-- The position argument of a rename step is an `int`. -/
def Call.typed : Call → Prop
  | .rename_dim _ _ dimid _ => isInt dimid
  | _ => True

instance (c : Call) : Decidable c.typed := by
  cases c <;> unfold Call.typed <;> infer_instance

/-- Every call of the history run from `ncp` either returns `NC_NOERR` or leaves
the dataset as it was. -/
def failuresChangeNothing (E : Env) : NC3_INFO → List Call → Prop
  | _, [] => True
  | ncp, c :: cs =>
    ((c.apply E ncp).1 = NC_NOERR ∨ (c.apply E ncp).2 = ncp) ∧
      failuresChangeNothing E (c.apply E ncp).2 cs

/-- Decision procedure for `failuresChangeNothing`. -/
def failuresChangeNothing.dec (E : Env) :
    (ncp : NC3_INFO) → (calls : List Call) → Decidable (failuresChangeNothing E ncp calls)
  | _, [] => isTrue trivial
  | ncp, c :: cs =>
    @instDecidableAnd _ _ inferInstance (failuresChangeNothing.dec E (c.apply E ncp).2 cs)

instance (E : Env) (ncp : NC3_INFO) (calls : List Call) :
    Decidable (failuresChangeNothing E ncp calls) :=
  failuresChangeNothing.dec E ncp calls

/-- The registry after a rename: the entity at `i` carries the buffer `str`, its
old name is removed from the index and the new one entered at `dimid`. -/
def renamed (a : NC_dimarray) (i : Nat) (dimid : Int) (d : NC_dim) (str : NC_string) :
    NC_dimarray :=
  { a with
    hashmap := NC_hashmapAddDim (NC_hashmapRemoveDim a.hashmap d.name.cp) dimid str.cp
    value := a.value.set i { d with name := str } }

/-! ## Sample histories and datasets -/

/-- A history of the sample dataset: two defines and a rename in the definition
phase, the end of the definition phase, and a rename in the restricted phase. -/
def sampleHistory : List Call :=
  [.def_dim allocOk 0 [97] 5, .def_dim allocOk 0 [98, 99] NC_UNLIMITED,
   .rename_dim allocOk 0 1 [100, 101], .external false false true 3,
   .rename_dim allocOk 0 0 [102]]

/-- A history with a failed rename: `a` is defined with size `5`, the definition
phase is left, the rename of `a` to `bcd` fails for want of room in the name
buffer, the definition phase is entered again and `a` is defined once more, with
size `7`. -/
def brokenHistory : List Call :=
  [.def_dim allocOk 0 [97] 5, .external false false false 0,
   .rename_dim allocOk 0 0 [98, 99, 100], .external true false false 0,
   .def_dim allocOk 0 [97] 7]

/-- A history with a failed define: `a` is defined, a second define of `a` is
refused because the name is in use, and `b` is defined. -/
def refusedHistory : List Call :=
  [.def_dim allocOk 0 [97] 5, .def_dim allocOk 0 [97] 7, .def_dim allocOk 0 [98] 7]

/-- A history that asks twice for an unbounded entity. -/
def twoUnlimited : List Call :=
  [.def_dim allocOk 0 [97] NC_UNLIMITED, .def_dim allocOk 0 [98] NC_UNLIMITED,
   .rename_dim allocOk 0 7 [99], .def_dim allocOk 0 [100] 3]

/-- The sample dataset after the define of `a` with size `5`, in the definition
phase. -/
def datasetA : NC3_INFO :=
  (runCalls sampleEnv (newDataset 0) [.def_dim allocOk 0 [97] 5]).2

/-- The sample dataset after the define of `a` with size `5`, in the restricted
phase. -/
def datasetAData : NC3_INFO :=
  (runCalls sampleEnv (newDataset 0)
    [.def_dim allocOk 0 [97] 5, .external false false false 0]).2

/-- The sample dataset after the define of `a` as the unbounded entity, in the
definition phase, five records written. -/
def datasetRec : NC3_INFO :=
  (runCalls sampleEnv (newDataset 0)
    [.def_dim allocOk 0 [97] NC_UNLIMITED, .external true false false 5]).2

/-- Nine defines, of the names `a` to `i` with the sizes `0` to `8`. -/
def nineDefines : List DefCall :=
  (List.range 9).map (fun i => { A := allocOk, ncid := 0, name := [97 + i], size := i })

/-- The first three of `nineDefines`. -/
def threeDefines : List DefCall := nineDefines.take 3

/-- The define of `x` with size `7`. -/
def xDefine : DefCall := { A := allocOk, ncid := 0, name := [120], size := 7 }

/-- The sample dataset after `threeDefines` and `xDefine`. -/
def datasetFour : NC3_INFO :=
  (NC3_def_dim sampleEnv xDefine.A (defineAll sampleEnv (newDataset 0) threeDefines).2
    xDefine.ncid xDefine.name xDefine.size).2.2

/-! ## Further definitions for the statements -/

/-- The sample dataset after the define of `a` with size `5`, reopened read-only. -/
def datasetARead : NC3_INFO :=
  (runCalls sampleEnv (newDataset 0)
    [.def_dim allocOk 0 [97] 5, .external false true false 0]).2

/-- The count of a slot array that lies in a 64-bit address space: below
`2^63`. -/
def countInRange (ncap : NC_dimarray) : Prop := ncap.nelems < 9223372036854775808

instance (ncap : NC_dimarray) : Decidable (countInRange ncap) := by
  unfold countInRange; infer_instance

/-- The name text and the size of an entity. -/
def NC_dim.key (d : NC_dim) : CString × Nat := (d.name.cp, d.size)

/-- The registry at the end of the sample history. -/
def sampleDims : NC_dimarray := (runCalls sampleEnv (newDataset 0) sampleHistory).2.dims

/-- The name of the `i`-th entity of the full registry: three letters. -/
def fullName (i : Nat) : CString := [97 + i % 26, 97 + i / 26 % 26, 97 + i / 676]

/-- A registry holding `NC_MAX_DIMS` entities. -/
def fullDims : NC_dimarray :=
  { nalloc := NC_MAX_DIMS
    hashmap := (List.range NC_MAX_DIMS).map (fun i => (fullName i, (i : Int)))
    value := (List.range NC_MAX_DIMS).map (fun i => ⟨⟨3, fullName i⟩, i + 1⟩) }

/-- A dataset in the definition phase whose registry is full. -/
def fullDataset : NC3_INFO := { newDataset 0 with dims := fullDims }

/-- The size bound of a format variant as the claim words it, the format maximum
minus `3`: `2^64 - 1 - 3` when the 64-bit-data flag is set (whether or not the
64-bit-offset flag is set too), else `2^32 - 1 - 3` when the 64-bit-offset flag
is set, else `2^31 - 1 - 3`. -/
def formatBound (flags : Nat) : Nat :=
  if flags &&& NC_64BIT_DATA ≠ 0 then 18446744073709551612
  else if flags &&& NC_64BIT_OFFSET ≠ 0 then 4294967292
  else 2147483644

/-- The sample environment with a normaliser that runs out of memory on every
name. -/
def oomEnv : Env :=
  { NC_check_id := sampleEnv.NC_check_id
    NC_check_name := sampleEnv.NC_check_name
    nc_utf8_normalize := fun _ => (NC_ENOMEM, [])
    NC_sync := sampleEnv.NC_sync }

/-! ## Lemmas -/

theorem getDim_nil (k : CString) : NC_hashmapGetDim [] k = -1 := rfl

theorem getDim_cons (k k' : CString) (v : Int) (h : NC_hashmap) :
    NC_hashmapGetDim ((k', v) :: h) k = if k' = k then v else NC_hashmapGetDim h k := by
  unfold NC_hashmapGetDim
  by_cases hk : k' = k
  · simp [List.find?_cons, hk]
  · simp [List.find?_cons, hk]

theorem getDim_of_not_mem (h : NC_hashmap) (k : CString) (hk : k ∉ h.map Prod.fst) :
    NC_hashmapGetDim h k = -1 := by
  induction h with
  | nil => rfl
  | cons e h ih =>
    obtain ⟨k', v⟩ := e
    simp only [List.map_cons, List.mem_cons, not_or] at hk
    rw [getDim_cons, if_neg (fun h' => hk.1 h'.symm), ih hk.2]

theorem getDim_of_mem (h : NC_hashmap) (k : CString) (v : Int)
    (hn : (h.map Prod.fst).Nodup) (hm : (k, v) ∈ h) : NC_hashmapGetDim h k = v := by
  induction h with
  | nil => simp at hm
  | cons e h ih =>
    obtain ⟨k', v'⟩ := e
    simp only [List.map_cons, List.nodup_cons] at hn
    rw [getDim_cons]
    rcases List.mem_cons.mp hm with heq | hin
    · simp only [Prod.mk.injEq] at heq
      rw [if_pos heq.1.symm, heq.2]
    · have hne : k' ≠ k := by
        intro hkk
        exact hn.1 (hkk ▸ List.mem_map_of_mem Prod.fst hin)
      rw [if_neg hne, ih hn.2 hin]

theorem removeDim_of_not_mem (h : NC_hashmap) (k : CString) (hk : k ∉ h.map Prod.fst) :
    NC_hashmapRemoveDim h k = h := by
  unfold NC_hashmapRemoveDim
  rw [List.filter_eq_self]
  intro e he
  have : e.1 ≠ k := fun h' => hk (h' ▸ List.mem_map_of_mem Prod.fst he)
  simpa using this

theorem indexOf_keys (l : List NC_dim) (s : Nat) :
    (indexOf l s).map Prod.fst = l.map (fun d => d.name.cp) := by
  induction l generalizing s with
  | nil => rfl
  | cons d ds ih => simp [indexOf, ih]

theorem indexOf_length (l : List NC_dim) (s : Nat) : (indexOf l s).length = l.length := by
  induction l generalizing s with
  | nil => rfl
  | cons d ds ih => simp [indexOf, ih]

theorem indexOf_append (l₁ l₂ : List NC_dim) (s : Nat) :
    indexOf (l₁ ++ l₂) s = indexOf l₁ s ++ indexOf l₂ (s + l₁.length) := by
  induction l₁ generalizing s with
  | nil => simp [indexOf]
  | cons d ds ih =>
    have hs : s + (ds.length + 1) = s + 1 + ds.length := by omega
    show (d.name.cp, (s : Int)) :: indexOf (ds ++ l₂) (s + 1)
      = (d.name.cp, (s : Int)) :: indexOf ds (s + 1) ++ indexOf l₂ (s + (ds.length + 1))
    rw [ih (s + 1), hs]
    rfl

theorem mem_indexOf (l : List NC_dim) (s : Nat) (n : CString) (p : Int) :
    (n, p) ∈ indexOf l s ↔ ∃ i d, l[i]? = some d ∧ d.name.cp = n ∧ p = ((s + i : Nat) : Int) := by
  induction l generalizing s with
  | nil => simp [indexOf]
  | cons d ds ih =>
    simp only [indexOf, List.mem_cons, Prod.mk.injEq, ih]
    constructor
    · rintro (⟨h1, h2⟩ | ⟨i, e, h1, h2, h3⟩)
      · exact ⟨0, d, by simp, h1.symm, by simp [h2]⟩
      · exact ⟨i + 1, e, by simpa using h1, h2, by rw [h3]; congr 1; omega⟩
    · rintro ⟨i, e, h1, h2, h3⟩
      cases i with
      | zero =>
        simp at h1
        left
        subst h1
        exact ⟨h2.symm, by simpa using h3⟩
      | succ j =>
        right
        exact ⟨j, e, by simpa using h1, h2, by rw [h3]; congr 1; omega⟩

theorem castInt_of_range (x : Int) (h0 : -2147483648 ≤ x) (h1 : x < 2147483648) : castInt x = x := by
  unfold castInt; omega

theorem castSizeT_of_nat (i : Nat) (h : i < 18446744073709551616) : castSizeT (i : Int) = i := by
  unfold castSizeT; omega

theorem Inv.keys_nodup {a : NC_dimarray} (h : Inv a) : (a.hashmap.map Prod.fst).Nodup := by
  have hp := h.index.map Prod.fst
  rw [indexOf_keys] at hp
  exact hp.nodup_iff.mpr h.names

theorem Inv.mem_index {a : NC_dimarray} (h : Inv a) (n : CString) (p : Int) :
    (n, p) ∈ a.hashmap ↔
      ∃ (i : Nat) (d : NC_dim), a.value[i]? = some d ∧ d.name.cp = n ∧ p = (i : Int) := by
  rw [h.index.mem_iff, mem_indexOf]
  simp

theorem Inv.keys_eq {a : NC_dimarray} (h : Inv a) (c : CString) :
    c ∈ a.hashmap.map Prod.fst ↔ c ∈ a.value.map (fun d => d.name.cp) := by
  have hp := h.index.map Prod.fst
  rw [indexOf_keys] at hp
  exact hp.mem_iff

theorem Inv.getDim {a : NC_dimarray} (h : Inv a) (i : Nat) (d : NC_dim)
    (hd : a.value[i]? = some d) : NC_hashmapGetDim a.hashmap d.name.cp = (i : Int) :=
  getDim_of_mem _ _ _ h.keys_nodup ((h.mem_index _ _).mpr ⟨i, d, hd, rfl, rfl⟩)

theorem Inv.getDim_none {a : NC_dimarray} (h : Inv a) (c : CString)
    (hc : c ∉ a.value.map (fun d => d.name.cp)) : NC_hashmapGetDim a.hashmap c = -1 :=
  getDim_of_not_mem _ _ (fun hk => hc ((h.keys_eq c).mp hk))

theorem lt_nelems_of_get {a : NC_dimarray} {i : Nat} {d : NC_dim}
    (hd : a.value[i]? = some d) : i < a.nelems := by
  unfold NC_dimarray.nelems
  exact (List.getElem?_eq_some_iff.mp hd).1

/-- Under the invariants `NC_finddim` finds the position of a name in use. -/
theorem finddim_found (E : Env) {a : NC_dimarray} (h : Inv a) (u : CString) (i : Nat)
    (d : NC_dim) (hd : a.value[i]? = some d)
    (hu : E.nc_utf8_normalize u = (NC_NOERR, d.name.cp)) :
    NC_finddim E a u = ((i : Int), some d) := by
  have hi := lt_nelems_of_get hd
  have hmax := h.max
  unfold NC_MAX_DIMS at hmax
  have hne : a.nelems ≠ 0 := by omega
  unfold NC_finddim
  rw [if_neg hne, hu]
  simp only [ne_eq, not_true_eq_false, if_false]
  rw [h.getDim i d hd, castInt_of_range _ (by omega) (by omega)]
  simp [hd]

/-- Under the invariants `NC_finddim` returns `-1` for a name not in use. -/
theorem finddim_absent (E : Env) {a : NC_dimarray} (h : Inv a) (u c : CString)
    (hu : E.nc_utf8_normalize u = (NC_NOERR, c))
    (hc : c ∉ a.value.map (fun d => d.name.cp)) :
    NC_finddim E a u = (-1, none) := by
  unfold NC_finddim
  split_ifs with h0
  · rfl
  · rw [hu]
    simp only [ne_eq, not_true_eq_false, if_false]
    rw [h.getDim_none c hc]
    rfl

/-- When `NC_finddim` returns `-1` and normalisation yields `c`, no entity is
named `c`. -/
theorem not_mem_of_finddim (E : Env) {a : NC_dimarray} (h : Inv a) (u c : CString)
    (hu : E.nc_utf8_normalize u = (NC_NOERR, c))
    (hf : (NC_finddim E a u).1 = -1) :
    c ∉ a.value.map (fun d => d.name.cp) := by
  intro hc
  obtain ⟨d, hd, hdc⟩ := List.mem_map.mp hc
  obtain ⟨i, hi, hget⟩ := List.getElem_of_mem hd
  have hget' : a.value[i]? = some d := by
    rw [List.getElem?_eq_getElem hi, hget]
  have := finddim_found E h u i d hget' (by rw [hu]; simp [← hdc])
  rw [this] at hf
  simp at hf

/-- What `new_NC_dim` returns when it returns an entity. -/
theorem new_NC_dim_some (E : Env) (A : Alloc) (u : CString) (size : Nat) (d : NC_dim)
    (h : new_NC_dim E A u size = some d) :
    ∃ c, E.nc_utf8_normalize u = (NC_NOERR, c) ∧ d = ⟨⟨c.length, c⟩, size⟩ := by
  unfold new_NC_dim at h
  rcases hn : E.nc_utf8_normalize u with ⟨stat, c⟩
  rw [hn] at h
  simp only [ne_eq] at h
  by_cases hs : stat = NC_NOERR
  · subst hs
    refine ⟨c, rfl, ?_⟩
    simp only [not_true_eq_false, if_false, new_NC_string, new_x_NC_dim, List.take_length] at h
    cases hA : A.string <;> cases hB : A.dim <;> simp [hA, hB] at h
    exact h.symm
  · simp [hs] at h

/-- A failed append leaves the registry as it was. -/
theorem incr_fail (ok : Bool) (a : NC_dimarray) (x : Option NC_dim)
    (h : (incr_NC_dimarray ok a x).1 ≠ NC_NOERR) : (incr_NC_dimarray ok a x).2 = a := by
  unfold incr_NC_dimarray at h ⊢
  split_ifs at h ⊢ <;> first | rfl | (exfalso; exact h rfl)

/-- The entities after a successful append. -/
theorem incr_value (ok : Bool) (a a' : NC_dimarray) (e : NC_dim)
    (h : incr_NC_dimarray ok a (some e) = (NC_NOERR, a')) : a'.value = a.value ++ [e] := by
  unfold incr_NC_dimarray at h
  split_ifs at h <;> simp only [Prod.mk.injEq] at h <;>
    first
    | (obtain ⟨-, rfl⟩ := h; rfl)
    | (exfalso; exact absurd h.1 (by decide))

/-- The registry after a successful append of an entity with an unused name. -/
theorem incr_ok_spec (ok : Bool) (a a' : NC_dimarray) (e : NC_dim) (hinv : Inv a)
    (hc : e.name.cp ∉ a.value.map (fun d => d.name.cp))
    (h : incr_NC_dimarray ok a (some e) = (NC_NOERR, a')) :
    a'.value = a.value ++ [e] ∧ a'.hashmap = (e.name.cp, (a.nelems : Int)) :: a.hashmap ∧
      a.nelems + 1 ≤ a'.nalloc := by
  have hk : e.name.cp ∉ a.hashmap.map Prod.fst := fun hk => hc ((hinv.keys_eq _).mp hk)
  have hcap := hinv.cap
  refine ⟨incr_value ok a a' e h, ?_, ?_⟩
  · unfold incr_NC_dimarray at h
    split_ifs at h with h0 h1 h2 h3 <;> simp only [Prod.mk.injEq] at h
    · exact absurd h.1 (by decide)
    · obtain ⟨-, rfl⟩ := h
      have hv : a.value = [] := by
        have : a.nelems = 0 := by omega
        exact List.length_eq_zero.mp this
      have hh : a.hashmap = [] := by
        have := hinv.index
        rw [hv] at this
        exact List.Perm.eq_nil this
      simp [incr_NC_dimarray.store, NC_hashmapAddDim, NC_hashmapCreate, NC_hashmapRemoveDim, hh,
        NC_dimarray.nelems]
    · exact absurd h.1 (by decide)
    · obtain ⟨-, rfl⟩ := h
      simp [incr_NC_dimarray.store, NC_hashmapAddDim, removeDim_of_not_mem _ _ hk,
        NC_dimarray.nelems]
    · obtain ⟨-, rfl⟩ := h
      simp [incr_NC_dimarray.store, NC_hashmapAddDim, removeDim_of_not_mem _ _ hk]
  · unfold incr_NC_dimarray at h
    unfold NC_ARRAY_GROWBY at h
    split_ifs at h with h0 h1 h2 h3 <;> simp only [Prod.mk.injEq] at h
    · exact absurd h.1 (by decide)
    · obtain ⟨-, rfl⟩ := h
      simp only [incr_NC_dimarray.store]
      omega
    · exact absurd h.1 (by decide)
    · obtain ⟨-, rfl⟩ := h
      simp only [incr_NC_dimarray.store]
      omega
    · obtain ⟨-, rfl⟩ := h
      simp only [incr_NC_dimarray.store]
      omega

/-- A successful append of an entity with an unused, fitting name keeps the
invariants. -/
theorem incr_inv (ok : Bool) (a a' : NC_dimarray) (e : NC_dim) (hinv : Inv a)
    (hmax : a.nelems < NC_MAX_DIMS)
    (hc : e.name.cp ∉ a.value.map (fun d => d.name.cp))
    (hfit : e.name.cp.length ≤ e.name.nchars)
    (h : incr_NC_dimarray ok a (some e) = (NC_NOERR, a')) : Inv a' := by
  obtain ⟨hv, hh, hn⟩ := incr_ok_spec ok a a' e hinv hc h
  have hlen : a'.nelems = a.nelems + 1 := by simp [NC_dimarray.nelems, hv]
  refine ⟨by omega, by omega, ?_, ?_, ?_⟩
  · rw [hh, hv, indexOf_append]
    simp only [indexOf, Nat.zero_add]
    exact (List.Perm.cons _ hinv.index).trans (List.perm_append_singleton _ _).symm
  · rw [hv, List.map_append, List.nodup_append]
    refine ⟨hinv.names, by simp, ?_⟩
    intro x hx hx'
    simp only [List.map_cons, List.map_nil, List.mem_singleton] at hx'
    exact hc (hx' ▸ hx)
  · intro d hd
    rw [hv, List.mem_append] at hd
    rcases hd with hd | hd
    · exact hinv.fits d hd
    · simp only [List.mem_singleton] at hd
      rw [hd]; exact hfit

/-- A define that fails writes no position and leaves the dataset as it was. -/
theorem def_dim_fail (E : Env) (A : Alloc) (ncp : NC3_INFO) (ncid : Int) (name : CString)
    (size : Nat) (h : (NC3_def_dim E A ncp ncid name size).1 ≠ NC_NOERR) :
    (NC3_def_dim E A ncp ncid name size).2 = (none, ncp) := by
  by_cases h1 : E.NC_check_id ncid ≠ NC_NOERR
  · simp only [NC3_def_dim, if_pos h1]
  by_cases h2 : NC_indef ncp = false
  · simp only [NC3_def_dim, if_neg h1, if_pos h2]
  by_cases h3 : E.NC_check_name name ≠ NC_NOERR
  · simp only [NC3_def_dim, if_neg h1, if_neg h2, if_pos h3]
  by_cases h4 : dimsize_exceeds ncp.flags size = true
  · simp only [NC3_def_dim, if_neg h1, if_neg h2, if_neg h3, if_pos h4]
  by_cases h5 : size = NC_UNLIMITED ∧ (find_NC_Udim ncp.dims).1 ≠ -1
  · simp only [NC3_def_dim, if_neg h1, if_neg h2, if_neg h3, if_neg h4, if_pos h5]
  by_cases h6 : ncp.dims.nelems ≥ NC_MAX_DIMS
  · simp only [NC3_def_dim, if_neg h1, if_neg h2, if_neg h3, if_neg h4, if_neg h5, if_pos h6]
  by_cases h7 : (NC_finddim E ncp.dims name).1 ≠ -1
  · simp only [NC3_def_dim, if_neg h1, if_neg h2, if_neg h3, if_neg h4, if_neg h5, if_neg h6,
      if_pos h7]
  cases h8 : new_NC_dim E A name size with
  | none =>
    simp only [NC3_def_dim, if_neg h1, if_neg h2, if_neg h3, if_neg h4, if_neg h5, if_neg h6,
      if_neg h7, h8]
  | some dimp =>
    by_cases h9 : (incr_NC_dimarray A.array ncp.dims (some dimp)).1 ≠ NC_NOERR
    · simp only [NC3_def_dim, if_neg h1, if_neg h2, if_neg h3, if_neg h4, if_neg h5, if_neg h6,
        if_neg h7, h8, if_pos h9, incr_fail _ _ _ h9]
    · exfalso
      apply h
      simp only [NC3_def_dim, if_neg h1, if_neg h2, if_neg h3, if_neg h4, if_neg h5, if_neg h6,
        if_neg h7, h8, if_neg h9]

/-- What a successful define did: the name was normalised to `c`, the new entity
was appended, and the position written is the count held before the call. -/
theorem def_dim_ok (E : Env) (A : Alloc) (ncp : NC3_INFO) (ncid : Int) (name : CString)
    (size : Nat) (h : (NC3_def_dim E A ncp ncid name size).1 = NC_NOERR) :
    ∃ c a', E.nc_utf8_normalize name = (NC_NOERR, c) ∧
      incr_NC_dimarray A.array ncp.dims (some ⟨⟨c.length, c⟩, size⟩) = (NC_NOERR, a') ∧
      NC3_def_dim E A ncp ncid name size
        = (NC_NOERR, some (ncp.dims.nelems : Int), { ncp with dims := a' }) ∧
      ncp.dims.nelems < NC_MAX_DIMS ∧ (NC_finddim E ncp.dims name).1 = -1 ∧
      (size = NC_UNLIMITED → (find_NC_Udim ncp.dims).1 = -1) := by
  by_cases h1 : E.NC_check_id ncid ≠ NC_NOERR
  · simp only [NC3_def_dim, if_pos h1] at h
    exact absurd h h1
  by_cases h2 : NC_indef ncp = false
  · simp only [NC3_def_dim, if_neg h1, if_pos h2] at h
    exact absurd h (by decide)
  by_cases h3 : E.NC_check_name name ≠ NC_NOERR
  · simp only [NC3_def_dim, if_neg h1, if_neg h2, if_pos h3] at h
    exact absurd h h3
  by_cases h4 : dimsize_exceeds ncp.flags size = true
  · simp only [NC3_def_dim, if_neg h1, if_neg h2, if_neg h3, if_pos h4] at h
    exact absurd h (by decide)
  by_cases h5 : size = NC_UNLIMITED ∧ (find_NC_Udim ncp.dims).1 ≠ -1
  · simp only [NC3_def_dim, if_neg h1, if_neg h2, if_neg h3, if_neg h4, if_pos h5] at h
    exact absurd h (by decide)
  by_cases h6 : ncp.dims.nelems ≥ NC_MAX_DIMS
  · simp only [NC3_def_dim, if_neg h1, if_neg h2, if_neg h3, if_neg h4, if_neg h5, if_pos h6] at h
    exact absurd h (by decide)
  by_cases h7 : (NC_finddim E ncp.dims name).1 ≠ -1
  · simp only [NC3_def_dim, if_neg h1, if_neg h2, if_neg h3, if_neg h4, if_neg h5, if_neg h6,
      if_pos h7] at h
    exact absurd h (by decide)
  cases h8 : new_NC_dim E A name size with
  | none =>
    simp only [NC3_def_dim, if_neg h1, if_neg h2, if_neg h3, if_neg h4, if_neg h5, if_neg h6,
      if_neg h7, h8] at h
    exact absurd h (by decide)
  | some dimp =>
    by_cases h9 : (incr_NC_dimarray A.array ncp.dims (some dimp)).1 ≠ NC_NOERR
    · simp only [NC3_def_dim, if_neg h1, if_neg h2, if_neg h3, if_neg h4, if_neg h5, if_neg h6,
        if_neg h7, h8, if_pos h9] at h
      exact absurd h h9
    · obtain ⟨c, hc, hdimp⟩ := new_NC_dim_some E A name size dimp h8
      rcases hi : incr_NC_dimarray A.array ncp.dims (some dimp) with ⟨st, a'⟩
      have hst : st = NC_NOERR := by
        rw [hi] at h9
        simpa using h9
      subst hst
      have hv := incr_value _ _ _ _ hi
      have hn : a'.nelems = ncp.dims.nelems + 1 := by simp [NC_dimarray.nelems, hv]
      have hmax : ncp.dims.nelems < 1024 := by
        have : NC_MAX_DIMS = 1024 := rfl
        omega
      refine ⟨c, a', hc, hdimp ▸ hi, ?_, by omega, by simpa using h7, ?_⟩
      · simp only [NC3_def_dim, if_neg h1, if_neg h2, if_neg h3, if_neg h4, if_neg h5, if_neg h6,
          if_neg h7, h8, if_neg h9, hi, hn]
        rw [castInt_of_range _ (by omega) (by omega)]
        simp
      · intro hsz
        by_contra hne
        exact h5 ⟨hsz, hne⟩

/-- The pointer `elem_NC_dimarray` returns: `NULL` when the bounds check fails,
else the entity of the slot. -/
theorem elem_NC_dimarray_eq (a : NC_dimarray) (i : Nat) :
    elem_NC_dimarray a i = if a.nelems = 0 ∨ i ≥ a.nelems then none else a.value[i]? := by
  unfold elem_NC_dimarray elem_NC_dimarray.read NC_dimarray.slot
  by_cases h : a.nelems = 0 ∨ i ≥ a.nelems
  · rw [if_pos h, if_pos h]
  · rw [if_neg h, if_neg h]
    cases a.value[i]? <;> rfl

/-- What `elem_NC_dimarray` returns when it returns an entity. -/
theorem elem_some (a : NC_dimarray) (i : Nat) (d : NC_dim) (h : elem_NC_dimarray a i = some d) :
    a.value[i]? = some d := by
  rw [elem_NC_dimarray_eq] at h
  split_ifs at h
  exact h

/-- A position that passes the bounds check of a registry within the fixed
maximum is the `int` it was cast from. -/
theorem dimid_eq_of_elem (a : NC_dimarray) (dimid : Int) (d : NC_dim)
    (hint : -2147483648 ≤ dimid ∧ dimid < 2147483648) (hmax : a.nelems ≤ NC_MAX_DIMS)
    (h : elem_NC_dimarray a (castSizeT dimid) = some d) :
    dimid = ((castSizeT dimid : Nat) : Int) := by
  have hlt := lt_nelems_of_get (elem_some a _ d h)
  have : NC_MAX_DIMS = 1024 := rfl
  unfold castSizeT at hlt ⊢
  omega

/-- What a successful rename did. -/
theorem rename_ok (E : Env) (A : Alloc) (ncp : NC3_INFO) (ncid : Int) (dimid : Int)
    (u : CString) (h : (NC3_rename_dim E A ncp ncid dimid u).1 = NC_NOERR) :
    ∃ d c str, elem_NC_dimarray ncp.dims (castSizeT dimid) = some d ∧
      E.nc_utf8_normalize u = (NC_NOERR, c) ∧
      (NC_finddim E ncp.dims u).1 = -1 ∧
      str.cp = c ∧ c.length ≤ str.nchars ∧
      (NC3_rename_dim E A ncp ncid dimid u).2.dims
        = renamed ncp.dims (castSizeT dimid) dimid d str ∧
      (NC3_rename_dim E A ncp ncid dimid u).2.numrecs = ncp.numrecs := by
  by_cases h1 : E.NC_check_id ncid ≠ NC_NOERR
  · simp only [NC3_rename_dim, if_pos h1] at h
    exact absurd h h1
  by_cases h2 : NC_readonly ncp = true
  · simp only [NC3_rename_dim, if_neg h1, if_pos h2] at h
    exact absurd h (by decide)
  by_cases h3 : E.NC_check_name u ≠ NC_NOERR
  · simp only [NC3_rename_dim, if_neg h1, if_neg h2, if_pos h3] at h
    exact absurd h h3
  by_cases h4 : (NC_finddim E ncp.dims u).1 ≠ -1
  · simp only [NC3_rename_dim, if_neg h1, if_neg h2, if_neg h3, if_pos h4] at h
    exact absurd h (by decide)
  cases h5 : elem_NC_dimarray ncp.dims (castSizeT dimid) with
  | none =>
    simp only [NC3_rename_dim, if_neg h1, if_neg h2, if_neg h3, if_neg h4, h5] at h
    exact absurd h (by decide)
  | some d =>
    rcases h6 : E.nc_utf8_normalize u with ⟨stat, c⟩
    by_cases h7 : stat ≠ NC_NOERR
    · simp only [NC3_rename_dim, if_neg h1, if_neg h2, if_neg h3, if_neg h4, h5, h6, if_pos h7] at h
      exact absurd h h7
    have hstat : stat = NC_NOERR := by simpa using h7
    subst hstat
    by_cases h8 : NC_indef ncp = true
    · cases h9 : A.string with
      | false =>
        simp only [NC3_rename_dim, if_neg h1, if_neg h2, if_neg h3, if_neg h4, h5, h6, if_neg h7,
          if_pos h8, new_NC_string, h9] at h
        simp only [Bool.false_eq_true, if_false] at h
        exact absurd h (by decide)
      | true =>
        refine ⟨d, c, ⟨c.length, c⟩, rfl, rfl, by simpa using h4, rfl, le_refl _, ?_, ?_⟩
        · simp only [NC3_rename_dim, if_neg h1, if_neg h2, if_neg h3, if_neg h4, h5, h6, if_neg h7,
            if_pos h8, new_NC_string, h9, List.take_length, renamed]
          rfl
        · simp only [NC3_rename_dim, if_neg h1, if_neg h2, if_neg h3, if_neg h4, h5, h6, if_neg h7,
            if_pos h8, new_NC_string, h9, List.take_length]
          rfl
    · by_cases h9 : d.name.nchars < c.length
      · simp only [NC3_rename_dim, if_neg h1, if_neg h2, if_neg h3, if_neg h4, h5, h6, if_neg h7,
          if_neg h8, set_NC_string, if_pos h9] at h
        have hne : NC_ENOTINDEFINE ≠ NC_NOERR := by decide
        simp only [ne_eq, hne, not_false_eq_true, if_true] at h
      · refine ⟨d, c, ⟨d.name.nchars, c⟩, rfl, rfl, by simpa using h4, rfl, Nat.le_of_not_lt h9, ?_, ?_⟩
        · simp only [NC3_rename_dim, if_neg h1, if_neg h2, if_neg h3, if_neg h4, h5, h6, if_neg h7,
            if_neg h8, set_NC_string, if_neg h9, renamed]
          simp only [ne_eq, not_true_eq_false, if_false]
          split_ifs <;> rfl
        · simp only [NC3_rename_dim, if_neg h1, if_neg h2, if_neg h3, if_neg h4, h5, h6, if_neg h7,
            if_neg h8, set_NC_string, if_neg h9]
          simp only [ne_eq, not_true_eq_false, if_false]
          split_ifs <;> rfl

theorem filter_indexOf_of_not_mem (l : List NC_dim) (s : Nat) (k : CString)
    (hk : k ∉ l.map (fun d => d.name.cp)) :
    (indexOf l s).filter (fun e => e.1 != k) = indexOf l s := by
  rw [List.filter_eq_self]
  intro e he
  have : e.1 ∈ (indexOf l s).map Prod.fst := List.mem_map_of_mem Prod.fst he
  rw [indexOf_keys] at this
  have hne : e.1 ≠ k := fun h' => hk (h' ▸ this)
  simpa using hne

/-- Replacing the entity at `i` changes the expected index by removing the old
name and entering the new one at `i`. -/
theorem indexOf_set_perm (l : List NC_dim) (s i : Nat) (d d' : NC_dim)
    (hd : l[i]? = some d) (hn : (l.map (fun d => d.name.cp)).Nodup) :
    ((d'.name.cp, ((s + i : Nat) : Int)) ::
      (indexOf l s).filter (fun e => e.1 != d.name.cp)).Perm (indexOf (l.set i d') s) := by
  induction l generalizing s i with
  | nil => simp at hd
  | cons d0 ds ih =>
    simp only [List.map_cons, List.nodup_cons] at hn
    cases i with
    | zero =>
      simp only [List.getElem?_cons_zero, Option.some.injEq] at hd
      subst hd
      simp only [List.set_cons_zero, indexOf, Nat.add_zero]
      rw [List.filter_cons]
      simp only [bne_self_eq_false, Bool.false_eq_true, if_false]
      rw [filter_indexOf_of_not_mem _ _ _ hn.1]
    | succ j =>
      simp only [List.getElem?_cons_succ] at hd
      have hmem : d.name.cp ∈ ds.map (fun d => d.name.cp) :=
        List.mem_map.mpr ⟨d, List.getElem?_mem hd, rfl⟩
      have hne : d0.name.cp ≠ d.name.cp := fun h' => hn.1 (h' ▸ hmem)
      simp only [List.set_cons_succ, indexOf]
      rw [List.filter_cons]
      have hb : (d0.name.cp != d.name.cp) = true := by simpa using hne
      simp only [hb, if_true]
      have hs : s + (j + 1) = s + 1 + j := by omega
      rw [hs]
      exact (List.Perm.swap _ _ _).trans (List.Perm.cons _ (ih (s + 1) j hd hn.2))

theorem nodup_set {α : Type} (l : List α) (i : Nat) (x : α) (hn : l.Nodup) (hx : x ∉ l) :
    (l.set i x).Nodup := by
  induction l generalizing i with
  | nil => simp
  | cons a as ih =>
    simp only [List.nodup_cons, List.mem_cons, not_or] at hn hx
    cases i with
    | zero =>
      simp only [List.set_cons_zero, List.nodup_cons]
      exact ⟨hx.2, hn.2⟩
    | succ j =>
      simp only [List.set_cons_succ, List.nodup_cons]
      refine ⟨?_, ih j hn.2 hx.2⟩
      intro hmem
      rcases List.mem_or_eq_of_mem_set hmem with h' | h'
      · exact hn.1 h'
      · exact hx.1 h'.symm

/-- Renaming the entity at `i` to an unused, fitting name keeps the invariants. -/
theorem renamed_inv (a : NC_dimarray) (i : Nat) (d : NC_dim) (str : NC_string)
    (hinv : Inv a) (hd : a.value[i]? = some d)
    (hc : str.cp ∉ a.value.map (fun d => d.name.cp)) (hfit : str.cp.length ≤ str.nchars) :
    Inv (renamed a i (i : Int) d str) := by
  have hlen : (renamed a i (i : Int) d str).nelems = a.nelems := by
    simp [renamed, NC_dimarray.nelems]
  refine ⟨by rw [hlen]; exact hinv.cap, by rw [hlen]; exact hinv.max, ?_, ?_, ?_⟩
  · show (NC_hashmapAddDim (NC_hashmapRemoveDim a.hashmap d.name.cp) (i : Int) str.cp).Perm
      (indexOf (a.value.set i { d with name := str }) 0)
    have hk : str.cp ∉ (NC_hashmapRemoveDim a.hashmap d.name.cp).map Prod.fst := by
      intro hk
      obtain ⟨e, he, hek⟩ := List.mem_map.mp hk
      have he' : e ∈ a.hashmap := (List.mem_filter.mp he).1
      exact hc ((hinv.keys_eq _).mp (hek ▸ List.mem_map_of_mem Prod.fst he'))
    unfold NC_hashmapAddDim
    rw [removeDim_of_not_mem _ _ hk]
    have h1 : (NC_hashmapRemoveDim a.hashmap d.name.cp).Perm
        ((indexOf a.value 0).filter (fun e => e.1 != d.name.cp)) :=
      List.Perm.filter _ hinv.index
    have h2 := indexOf_set_perm a.value 0 i d { d with name := str } hd hinv.names
    simp only [Nat.zero_add] at h2
    exact (List.Perm.cons _ h1).trans h2
  · show ((a.value.set i { d with name := str }).map (fun d => d.name.cp)).Nodup
    rw [List.map_set]
    exact nodup_set _ _ _ hinv.names hc
  · intro e he
    rcases List.mem_or_eq_of_mem_set he with h' | h'
    · exact hinv.fits e h'
    · rw [h']; exact hfit

theorem scan_le (l : List NC_dim) (s : Nat) : find_NC_Udim.scan l s ≤ s + l.length := by
  induction l generalizing s with
  | nil => simp [find_NC_Udim.scan]
  | cons d ds ih =>
    unfold find_NC_Udim.scan
    split_ifs
    · have := ih (s + 1)
      simp only [List.length_cons]
      omega
    · omega

theorem scan_ge (l : List NC_dim) (s : Nat) : s ≤ find_NC_Udim.scan l s := by
  induction l generalizing s with
  | nil => simp [find_NC_Udim.scan]
  | cons d ds ih =>
    unfold find_NC_Udim.scan
    split_ifs
    · have := ih (s + 1)
      omega
    · omega

/-- The scan runs off the end exactly when every entity is bounded. -/
theorem scan_eq_iff (l : List NC_dim) (s : Nat) :
    find_NC_Udim.scan l s = s + l.length ↔ ∀ d ∈ l, d.size ≠ NC_UNLIMITED := by
  induction l generalizing s with
  | nil => simp [find_NC_Udim.scan]
  | cons d ds ih =>
    unfold find_NC_Udim.scan
    split_ifs with h
    · have hs : s + (d :: ds).length = s + 1 + ds.length := by simp only [List.length_cons]; omega
      rw [hs, ih (s + 1)]
      simp [h]
    · constructor
      · intro h'
        simp only [List.length_cons] at h'
        omega
      · intro h'
        exact absurd (h' d (List.mem_cons_self _ _)) h

/-- `find_NC_Udim` returns `-1` exactly when no entity is unbounded. -/
theorem find_NC_Udim_eq_neg_one (a : NC_dimarray) :
    (find_NC_Udim a).1 = -1 ↔ ∀ d ∈ a.value, d.size ≠ NC_UNLIMITED := by
  unfold find_NC_Udim
  by_cases h0 : a.nelems = 0
  · have : a.value = [] := List.length_eq_zero.mp h0
    simp [h0, this]
  · rw [if_neg h0]
    simp only []
    have hle := scan_le a.value 0
    by_cases h1 : find_NC_Udim.scan a.value 0 ≥ a.nelems
    · rw [if_pos h1]
      have : find_NC_Udim.scan a.value 0 = 0 + a.value.length := by
        unfold NC_dimarray.nelems at h1
        omega
      simp only [true_iff]
      exact (scan_eq_iff a.value 0).mp this
    · rw [if_neg h1]
      constructor
      · intro h'
        simp only at h'
        omega
      · intro h'
        have := (scan_eq_iff a.value 0).mpr h'
        unfold NC_dimarray.nelems at h1
        omega

theorem countUnlimited_eq_zero (a : NC_dimarray) :
    countUnlimited a = 0 ↔ ∀ d ∈ a.value, d.size ≠ NC_UNLIMITED := by
  unfold countUnlimited
  rw [List.countP_eq_zero]
  simp

/-- The number of unbounded entities depends on the sizes only. -/
theorem countUnlimited_of_sizes (a b : NC_dimarray)
    (h : a.value.map (fun d => d.size) = b.value.map (fun d => d.size)) :
    countUnlimited a = countUnlimited b := by
  unfold countUnlimited
  have key : ∀ l : List NC_dim, l.countP (fun d => d.size == NC_UNLIMITED)
      = (l.map (fun d => d.size)).countP (fun n => n == NC_UNLIMITED) := by
    intro l
    rw [List.countP_map]
    rfl
  rw [key, key, h]

/-- A define keeps the number of unbounded entities at most one. -/
theorem def_dim_count (E : Env) (A : Alloc) (ncp : NC3_INFO) (ncid : Int) (name : CString)
    (size : Nat) (h : countUnlimited ncp.dims ≤ 1) :
    countUnlimited (NC3_def_dim E A ncp ncid name size).2.2.dims ≤ 1 := by
  by_cases hs : (NC3_def_dim E A ncp ncid name size).1 = NC_NOERR
  · obtain ⟨c, a', -, hi, heq, -, -, hu⟩ := def_dim_ok E A ncp ncid name size hs
    rw [heq]
    have hv := incr_value _ _ _ _ hi
    show countUnlimited a' ≤ 1
    unfold countUnlimited at h ⊢
    rw [hv, List.countP_append]
    by_cases hsz : size = NC_UNLIMITED
    · have h0 := (countUnlimited_eq_zero ncp.dims).mpr ((find_NC_Udim_eq_neg_one _).mp (hu hsz))
      unfold countUnlimited at h0
      rw [h0]
      simp [List.countP_cons]
      split_ifs
      omega
    · have : List.countP (fun d => d.size == NC_UNLIMITED)
          [({ name := { nchars := c.length, cp := c }, size := size } : NC_dim)] = 0 := by
        simp [List.countP_cons, hsz]
      rw [this]
      omega
  · have := def_dim_fail E A ncp ncid name size hs
    rw [Prod.ext_iff] at this
    rw [this.2]
    exact h

theorem set_same_size (l : List NC_dim) (i : Nat) (d : NC_dim) (str : NC_string)
    (hd : l[i]? = some d) :
    (l.set i { d with name := str }).map (fun d => d.size) = l.map (fun d => d.size) := by
  induction l generalizing i with
  | nil => simp
  | cons d0 ds ih =>
    cases i with
    | zero =>
      simp only [List.getElem?_cons_zero, Option.some.injEq] at hd
      subst hd
      simp
    | succ j =>
      simp only [List.getElem?_cons_succ] at hd
      simp [ih j hd]

/-- A rename, successful or not, leaves every size and the capacity as they
were. -/
theorem rename_sizes (E : Env) (A : Alloc) (ncp : NC3_INFO) (ncid : Int) (dimid : Int)
    (u : CString) :
    (NC3_rename_dim E A ncp ncid dimid u).2.dims.value.map (fun d => d.size)
      = ncp.dims.value.map (fun d => d.size) := by
  by_cases h1 : E.NC_check_id ncid ≠ NC_NOERR
  · simp only [NC3_rename_dim, if_pos h1]
  by_cases h2 : NC_readonly ncp = true
  · simp only [NC3_rename_dim, if_neg h1, if_pos h2]
  by_cases h3 : E.NC_check_name u ≠ NC_NOERR
  · simp only [NC3_rename_dim, if_neg h1, if_neg h2, if_pos h3]
  by_cases h4 : (NC_finddim E ncp.dims u).1 ≠ -1
  · simp only [NC3_rename_dim, if_neg h1, if_neg h2, if_neg h3, if_pos h4]
  cases h5 : elem_NC_dimarray ncp.dims (castSizeT dimid) with
  | none =>
    simp only [NC3_rename_dim, if_neg h1, if_neg h2, if_neg h3, if_neg h4, h5]
  | some d =>
    have hd := elem_some _ _ _ h5
    rcases h6 : E.nc_utf8_normalize u with ⟨stat, c⟩
    by_cases h7 : stat ≠ NC_NOERR
    · simp only [NC3_rename_dim, if_neg h1, if_neg h2, if_neg h3, if_neg h4, h5, h6, if_pos h7]
    by_cases h8 : NC_indef ncp = true
    · cases h9 : A.string with
      | false =>
        simp only [NC3_rename_dim, if_neg h1, if_neg h2, if_neg h3, if_neg h4, h5, h6, if_neg h7,
          if_pos h8, new_NC_string, h9, Bool.false_eq_true, if_false]
      | true =>
        simp only [NC3_rename_dim, if_neg h1, if_neg h2, if_neg h3, if_neg h4, h5, h6, if_neg h7,
          if_pos h8, new_NC_string, h9, if_true]
        exact set_same_size _ _ _ _ hd
    · by_cases h9 : d.name.nchars < c.length
      · have hne : NC_ENOTINDEFINE ≠ NC_NOERR := by decide
        simp only [NC3_rename_dim, if_neg h1, if_neg h2, if_neg h3, if_neg h4, h5, h6, if_neg h7,
          if_neg h8, set_NC_string, if_pos h9, ne_eq, hne, not_false_eq_true, if_true]
      · simp only [NC3_rename_dim, if_neg h1, if_neg h2, if_neg h3, if_neg h4, h5, h6, if_neg h7,
          if_neg h8, set_NC_string, if_neg h9, ne_eq, not_true_eq_false, if_false]
        split_ifs <;> exact set_same_size _ _ _ _ hd

theorem emptyDims_inv : Inv emptyDims :=
  ⟨Nat.le_refl _, Nat.zero_le _, List.Perm.refl _, List.nodup_nil, fun _ h => absurd h (List.not_mem_nil _)⟩

/-- A define, successful or not, keeps the invariants. -/
theorem def_dim_inv (E : Env) (A : Alloc) (ncp : NC3_INFO) (ncid : Int) (name : CString)
    (size : Nat) (hinv : Inv ncp.dims) :
    Inv (NC3_def_dim E A ncp ncid name size).2.2.dims := by
  by_cases hs : (NC3_def_dim E A ncp ncid name size).1 = NC_NOERR
  · obtain ⟨c, a', hc, hi, heq, hmax, hf, -⟩ := def_dim_ok E A ncp ncid name size hs
    rw [heq]
    exact incr_inv _ _ _ _ hinv hmax (not_mem_of_finddim E hinv name c hc hf) (Nat.le_refl _) hi
  · have := def_dim_fail E A ncp ncid name size hs
    rw [Prod.ext_iff] at this
    rw [this.2]
    exact hinv

/-- A successful rename keeps the invariants. -/
theorem rename_inv (E : Env) (A : Alloc) (ncp : NC3_INFO) (ncid : Int) (dimid : Int)
    (u : CString) (hinv : Inv ncp.dims) (hint : isInt dimid)
    (hok : (NC3_rename_dim E A ncp ncid dimid u).1 = NC_NOERR) :
    Inv (NC3_rename_dim E A ncp ncid dimid u).2.dims := by
  obtain ⟨d, c, str, he, hc, hf, hstr, hfit, heq, -⟩ := rename_ok E A ncp ncid dimid u hok
  rw [heq]
  have hdim := dimid_eq_of_elem ncp.dims dimid d hint hinv.max he
  have hnot := not_mem_of_finddim E hinv u c hc hf
  have := renamed_inv ncp.dims (castSizeT dimid) d str hinv (elem_some _ _ _ he)
    (hstr ▸ hnot) (hstr ▸ hfit)
  rw [← hdim] at this
  exact this

/-- A history of successful calls keeps the invariants. -/
theorem runCalls_inv (E : Env) (calls : List Call) (ncp : NC3_INFO) (hinv : Inv ncp.dims)
    (htyped : ∀ c ∈ calls, c.typed)
    (hok : ∀ st ∈ (runCalls E ncp calls).1, st = NC_NOERR) :
    Inv (runCalls E ncp calls).2.dims := by
  induction calls generalizing ncp with
  | nil => exact hinv
  | cons c cs ih =>
    simp only [runCalls, List.mem_cons, forall_eq_or_imp] at hok htyped ⊢
    apply ih _ _ htyped.2 hok.2
    cases c with
    | def_dim A ncid name size => exact def_dim_inv E A ncp ncid name size hinv
    | rename_dim A ncid dimid u => exact rename_inv E A ncp ncid dimid u hinv htyped.1 hok.1
    | external i r h n => exact hinv

/-- Any history keeps the number of unbounded entities at most one. -/
theorem runCalls_count (E : Env) (calls : List Call) (ncp : NC3_INFO)
    (h : countUnlimited ncp.dims ≤ 1) : countUnlimited (runCalls E ncp calls).2.dims ≤ 1 := by
  induction calls generalizing ncp with
  | nil => exact h
  | cons c cs ih =>
    simp only [runCalls]
    apply ih
    cases c with
    | def_dim A ncid name size => exact def_dim_count E A ncp ncid name size h
    | rename_dim A ncid dimid u =>
      show countUnlimited (NC3_rename_dim E A ncp ncid dimid u).2.dims ≤ 1
      rw [countUnlimited_of_sizes _ _ (rename_sizes E A ncp ncid dimid u)]
      exact h
    | external i r h' n => exact h

/-- A define keeps the entities already held, at their positions. -/
theorem def_dim_keeps (E : Env) (A : Alloc) (ncp : NC3_INFO) (ncid : Int) (name : CString)
    (size : Nat) :
    ∃ ext, (NC3_def_dim E A ncp ncid name size).2.2.dims.value = ncp.dims.value ++ ext := by
  by_cases hs : (NC3_def_dim E A ncp ncid name size).1 = NC_NOERR
  · obtain ⟨c, a', -, hi, heq, -, -, -⟩ := def_dim_ok E A ncp ncid name size hs
    rw [heq]
    exact ⟨_, incr_value _ _ _ _ hi⟩
  · have := def_dim_fail E A ncp ncid name size hs
    rw [Prod.ext_iff] at this
    rw [this.2]
    exact ⟨[], (List.append_nil _).symm⟩

theorem defineAll_keeps (E : Env) (calls : List DefCall) (ncp : NC3_INFO) :
    ∃ ext, (defineAll E ncp calls).2.dims.value = ncp.dims.value ++ ext := by
  induction calls generalizing ncp with
  | nil => exact ⟨[], (List.append_nil _).symm⟩
  | cons c cs ih =>
    simp only [defineAll]
    obtain ⟨e1, h1⟩ := def_dim_keeps E c.A ncp c.ncid c.name c.size
    obtain ⟨e2, h2⟩ := ih (NC3_def_dim E c.A ncp c.ncid c.name c.size).2.2
    exact ⟨e1 ++ e2, by rw [h2, h1, List.append_assoc]⟩

theorem defineAll_inv (E : Env) (calls : List DefCall) (ncp : NC3_INFO) (hinv : Inv ncp.dims) :
    Inv (defineAll E ncp calls).2.dims := by
  induction calls generalizing ncp with
  | nil => exact hinv
  | cons c cs ih =>
    simp only [defineAll]
    exact ih _ (def_dim_inv E c.A ncp c.ncid c.name c.size hinv)

/-- Defines change nothing of the dataset but its registry. -/
theorem def_dim_numrecs (E : Env) (A : Alloc) (ncp : NC3_INFO) (ncid : Int) (name : CString)
    (size : Nat) : (NC3_def_dim E A ncp ncid name size).2.2.numrecs = ncp.numrecs := by
  by_cases hs : (NC3_def_dim E A ncp ncid name size).1 = NC_NOERR
  · obtain ⟨c, a', -, hi, heq, -, -, -⟩ := def_dim_ok E A ncp ncid name size hs
    rw [heq]
  · have := def_dim_fail E A ncp ncid name size hs
    rw [Prod.ext_iff] at this
    rw [this.2]

/-- Under the invariants, `NC3_inq_dim` at a position in use reports the name and
size held there. -/
theorem inq_dim_at (E : Env) (ncp : NC3_INFO) (ncid : Int) (i : Nat) (d : NC_dim)
    (hid : E.NC_check_id ncid = NC_NOERR) (hinv : Inv ncp.dims)
    (hd : ncp.dims.value[i]? = some d) :
    NC3_inq_dim E ncp ncid (i : Int)
      = (NC_NOERR, some d.name.cp,
          some (if d.size = NC_UNLIMITED then ncp.numrecs else d.size)) := by
  have hi := lt_nelems_of_get hd
  have hmax := hinv.max
  have hM : NC_MAX_DIMS = 1024 := rfl
  have hcast : castSizeT (i : Int) = i := castSizeT_of_nat i (by omega)
  have helem : elem_NC_dimarray ncp.dims i = some d := by
    rw [elem_NC_dimarray_eq]
    rw [if_neg (by omega)]
    exact hd
  have hfit := hinv.fits d (List.getElem?_mem hd)
  simp only [NC3_inq_dim, hid, ne_eq, not_true_eq_false, if_false, hcast, helem,
    List.take_of_length_le hfit, NC_get_numrecs]

/-- Under the invariants, `NC3_inq_dimid` finds the position of a name whose
canonical form is in use. -/
theorem inq_dimid_at (E : Env) (ncp : NC3_INFO) (ncid : Int) (u : CString) (i : Nat)
    (d : NC_dim) (hid : E.NC_check_id ncid = NC_NOERR) (hinv : Inv ncp.dims)
    (hd : ncp.dims.value[i]? = some d)
    (hu : E.nc_utf8_normalize u = (NC_NOERR, d.name.cp)) :
    NC3_inq_dimid E ncp ncid u = (NC_NOERR, some (i : Int)) := by
  have hne : (i : Int) ≠ -1 := by omega
  simp only [NC3_inq_dimid, hid, ne_eq, not_true_eq_false, if_false,
    finddim_found E hinv u i d hd hu, hne]

/-- A successful call was given a valid handle. -/
theorem rename_ok_handle (E : Env) (A : Alloc) (ncp : NC3_INFO) (ncid : Int) (dimid : Int)
    (u : CString) (h : (NC3_rename_dim E A ncp ncid dimid u).1 = NC_NOERR) :
    E.NC_check_id ncid = NC_NOERR := by
  by_contra h1
  simp only [NC3_rename_dim, ne_eq, h1, not_false_eq_true, if_true] at h

/-- Under the invariants, `NC3_inq_dimid` reports not-found for a name whose
canonical form is not in use. -/
theorem inq_dimid_absent (E : Env) (ncp : NC3_INFO) (ncid : Int) (u c : CString)
    (hid : E.NC_check_id ncid = NC_NOERR) (hinv : Inv ncp.dims)
    (hu : E.nc_utf8_normalize u = (NC_NOERR, c))
    (hc : c ∉ ncp.dims.value.map (fun d => d.name.cp)) :
    NC3_inq_dimid E ncp ncid u = (NC_EBADDIM, none) := by
  simp only [NC3_inq_dimid, hid, ne_eq, not_true_eq_false, if_false,
    finddim_absent E hinv u c hu hc, if_true]

/-- Under the invariants two positions holding the same name are equal. -/
theorem Inv.pos_inj {a : NC_dimarray} (h : Inv a) (i j : Nat) (d e : NC_dim)
    (hd : a.value[i]? = some d) (he : a.value[j]? = some e) (hn : d.name.cp = e.name.cp) :
    i = j := by
  have h1 := h.getDim i d hd
  have h2 := h.getDim j e he
  rw [hn, h2] at h1
  omega

/-- The size `0` passes the size test of every format variant. -/
theorem dimsize_unlimited (flags : Nat) : dimsize_exceeds flags NC_UNLIMITED = false := by
  unfold dimsize_exceeds
  split_ifs <;> decide

/-- With the array allocation succeeding, an append succeeds. -/
theorem incr_status_ok (a : NC_dimarray) (x : Option NC_dim) :
    (incr_NC_dimarray true a x).1 = NC_NOERR := by
  unfold incr_NC_dimarray
  split_ifs <;> first | rfl | contradiction

/-- With normalisation and both allocations succeeding, `new_NC_dim` returns the
entity. -/
theorem new_NC_dim_ok (E : Env) (u c : CString) (size : Nat)
    (hc : E.nc_utf8_normalize u = (NC_NOERR, c)) :
    new_NC_dim E allocOk u size = some ⟨⟨c.length, c⟩, size⟩ := by
  simp [new_NC_dim, hc, new_NC_string, new_x_NC_dim, allocOk]

theorem getDim_removeDim (h : NC_hashmap) (k : CString) :
    NC_hashmapGetDim (NC_hashmapRemoveDim h k) k = -1 := by
  apply getDim_of_not_mem
  intro hk
  obtain ⟨e, he, hek⟩ := List.mem_map.mp hk
  have := (List.mem_filter.mp he).2
  simp [hek] at this

/-- A history each call of which succeeds or changes nothing keeps the
invariants. -/
theorem runCalls_inv_of_failuresChangeNothing (E : Env) (calls : List Call) (ncp : NC3_INFO)
    (hinv : Inv ncp.dims) (htyped : ∀ c ∈ calls, c.typed)
    (hfail : failuresChangeNothing E ncp calls) :
    Inv (runCalls E ncp calls).2.dims := by
  induction calls generalizing ncp with
  | nil => exact hinv
  | cons c cs ih =>
    simp only [runCalls, List.mem_cons, forall_eq_or_imp] at htyped ⊢
    obtain ⟨hstep, hrest⟩ := hfail
    apply ih _ _ htyped.2 hrest
    rcases hstep with hok | hsame
    · cases c with
      | def_dim A ncid name size => exact def_dim_inv E A ncp ncid name size hinv
      | rename_dim A ncid dimid u => exact rename_inv E A ncp ncid dimid u hinv htyped.1 hok
      | external i r h n => exact hinv
    · rw [hsame]
      exact hinv

/-- Starting from an empty registry, after any history of define and rename
calls, in either phase (the position arguments being C `int`s), each of which
returns `NC_NOERR` or leaves the dataset as it was, the name index holds exactly
the mappings "canonical name of the entity at position `i` to `i`", one per
entity and no other: it is a rearrangement of `indexOf`, it has as many mappings
as there are entities, and a lookup of an entity's name yields its position; and
no two entities share a canonical name. -/
theorem name_index_exact_of_failuresChangeNothing (E : Env) (ncp : NC3_INFO)
    (calls : List Call) (hempty : ncp.dims = emptyDims) (htyped : ∀ c ∈ calls, c.typed)
    (hfail : failuresChangeNothing E ncp calls) :
    (runCalls E ncp calls).2.dims.hashmap.Perm (indexOf (runCalls E ncp calls).2.dims.value 0) ∧
    (runCalls E ncp calls).2.dims.hashmap.length = (runCalls E ncp calls).2.dims.nelems ∧
    (∀ (i : Nat) (d : NC_dim), (runCalls E ncp calls).2.dims.value[i]? = some d →
      NC_hashmapGetDim (runCalls E ncp calls).2.dims.hashmap d.name.cp = (i : Int)) ∧
    ((runCalls E ncp calls).2.dims.value.map (fun d => d.name.cp)).Nodup := by
  have hinv := runCalls_inv_of_failuresChangeNothing E calls ncp (hempty ▸ emptyDims_inv)
    htyped hfail
  refine ⟨hinv.index, ?_, fun i d hd => hinv.getDim i d hd, hinv.names⟩
  rw [hinv.index.length_eq, indexOf_length]
  rfl

/-- The history `refusedHistory`, whose second call fails with the name in use
and changes nothing, leaves the index exact. -/
theorem name_index_exact_refusedHistory :
    (runCalls sampleEnv (newDataset 0) refusedHistory).1
      = [NC_NOERR, NC_ENAMEINUSE, NC_NOERR] ∧
    failuresChangeNothing sampleEnv (newDataset 0) refusedHistory ∧
    (runCalls sampleEnv (newDataset 0) refusedHistory).2.dims.hashmap.Perm
      (indexOf (runCalls sampleEnv (newDataset 0) refusedHistory).2.dims.value 0) :=
  ⟨by decide, by decide,
    (name_index_exact_of_failuresChangeNothing sampleEnv (newDataset 0) refusedHistory rfl
      (by decide) (by decide)).1⟩

/-- Starting from an empty registry, after any history of define and rename
calls all of which return `NC_NOERR`, the name index is exact and no two
entities share a canonical name. -/
theorem name_index_exact_of_all_ok (E : Env) (ncp : NC3_INFO)
    (calls : List Call) (hempty : ncp.dims = emptyDims) (htyped : ∀ c ∈ calls, c.typed)
    (hok : ∀ st ∈ (runCalls E ncp calls).1, st = NC_NOERR) :
    (runCalls E ncp calls).2.dims.hashmap.Perm (indexOf (runCalls E ncp calls).2.dims.value 0) ∧
    (runCalls E ncp calls).2.dims.hashmap.length = (runCalls E ncp calls).2.dims.nelems ∧
    (∀ (i : Nat) (d : NC_dim), (runCalls E ncp calls).2.dims.value[i]? = some d →
      NC_hashmapGetDim (runCalls E ncp calls).2.dims.hashmap d.name.cp = (i : Int)) ∧
    ((runCalls E ncp calls).2.dims.value.map (fun d => d.name.cp)).Nodup := by
  have hinv := runCalls_inv E calls ncp (hempty ▸ emptyDims_inv) htyped hok
  refine ⟨hinv.index, ?_, fun i d hd => hinv.getDim i d hd, hinv.names⟩
  rw [hinv.index.length_eq, indexOf_length]
  rfl

/-- The sample history, which renames once in each phase and all of whose calls
return `NC_NOERR`, leaves the index exact. -/
theorem name_index_exact_sampleHistory :
    (newDataset 0).dims = emptyDims ∧ (∀ c ∈ sampleHistory, c.typed) ∧
    (∀ st ∈ (runCalls sampleEnv (newDataset 0) sampleHistory).1, st = NC_NOERR) ∧
    (runCalls sampleEnv (newDataset 0) sampleHistory).2.dims.hashmap
      = [([102], 0), ([100, 101], 1)] ∧
    (runCalls sampleEnv (newDataset 0) sampleHistory).2.dims.hashmap.Perm
      (indexOf (runCalls sampleEnv (newDataset 0) sampleHistory).2.dims.value 0) :=
  ⟨rfl, by decide, by decide, by decide,
    (name_index_exact_of_all_ok sampleEnv (newDataset 0) sampleHistory rfl
      (by decide) (by decide)).1⟩

/-! ## The claims -/

/-- C1, what the code does. The history `brokenHistory` starts from the empty
registry and ends with a successful define; its third call, a rename in the
restricted phase to a name longer than the name buffer, fails after the old
mapping has been taken out of the name index. After the last, successful call
the registry holds two entities of the canonical name `a`, at positions `0` and
`1`, while the name index holds the single mapping of `a` to position `1`: the
index is not the list of the mappings of the entities, it has fewer mappings
than there are entities, the lookup of the name of the entity at position `0`
does not yield `0`, and two entities share a canonical name. -/
theorem name_index_broken_after_failed_rename :
    (newDataset 0).dims = emptyDims ∧
    (∀ c ∈ brokenHistory, c.typed) ∧
    (runCalls sampleEnv (newDataset 0) brokenHistory).1
      = [NC_NOERR, NC_NOERR, NC_ENOTINDEFINE, NC_NOERR, NC_NOERR] ∧
    (runCalls sampleEnv (newDataset 0) brokenHistory).2.dims.value
      = [⟨⟨1, [97]⟩, 5⟩, ⟨⟨1, [97]⟩, 7⟩] ∧
    (runCalls sampleEnv (newDataset 0) brokenHistory).2.dims.hashmap = [([97], 1)] ∧
    ¬ (runCalls sampleEnv (newDataset 0) brokenHistory).2.dims.hashmap.Perm
        (indexOf (runCalls sampleEnv (newDataset 0) brokenHistory).2.dims.value 0) ∧
    (runCalls sampleEnv (newDataset 0) brokenHistory).2.dims.hashmap.length
      ≠ (runCalls sampleEnv (newDataset 0) brokenHistory).2.dims.nelems ∧
    NC_hashmapGetDim (runCalls sampleEnv (newDataset 0) brokenHistory).2.dims.hashmap [97] ≠ 0 ∧
    ¬ ((runCalls sampleEnv (newDataset 0) brokenHistory).2.dims.value.map
        (fun d => d.name.cp)).Nodup := by
  decide

/-- C2, what the code does. On a registry satisfying the invariants, in the
restricted phase, a rename of the entity `d` at position `p` to a valid, unused
name whose canonical form `c` is longer than the name buffer of `d` fails with
the capacity error and leaves every entity as it was, but it has removed the
mapping of the old name from the name index: before the call a lookup of the old
name returns `p`, after the call it reports not-found. -/
theorem rename_too_long_drops_index_entry (E : Env) (A : Alloc) (ncp : NC3_INFO)
    (ncid : Int) (p : Nat) (d : NC_dim) (u c : CString) (hinv : Inv ncp.dims)
    (hid : E.NC_check_id ncid = NC_NOERR) (hrw : NC_readonly ncp = false)
    (hname : E.NC_check_name u = NC_NOERR) (hd : ncp.dims.value[p]? = some d)
    (hc : E.nc_utf8_normalize u = (NC_NOERR, c))
    (hunused : c ∉ ncp.dims.value.map (fun d => d.name.cp))
    (hphase : NC_indef ncp = false) (hlong : d.name.nchars < c.length)
    (hcanon : E.nc_utf8_normalize d.name.cp = (NC_NOERR, d.name.cp)) :
    (NC3_rename_dim E A ncp ncid p u).1 = NC_ENOTINDEFINE ∧
    (NC3_rename_dim E A ncp ncid p u).2.dims.value = ncp.dims.value ∧
    (NC3_rename_dim E A ncp ncid p u).2.dims.hashmap
      = NC_hashmapRemoveDim ncp.dims.hashmap d.name.cp ∧
    NC3_inq_dimid E ncp ncid d.name.cp = (NC_NOERR, some (p : Int)) ∧
    NC3_inq_dimid E (NC3_rename_dim E A ncp ncid p u).2 ncid d.name.cp = (NC_EBADDIM, none) := by
  have hp := lt_nelems_of_get hd
  have hmax := hinv.max
  have hM : NC_MAX_DIMS = 1024 := rfl
  have hcast : castSizeT (p : Int) = p := castSizeT_of_nat p (by omega)
  have helem : elem_NC_dimarray ncp.dims p = some d := by
    rw [elem_NC_dimarray_eq]
    rw [if_neg (by omega)]
    exact hd
  have h4 := finddim_absent E hinv u c hc hunused
  have hne : NC_ENOTINDEFINE ≠ NC_NOERR := by decide
  have key : NC3_rename_dim E A ncp ncid p u
      = (NC_ENOTINDEFINE, { ncp with dims := { ncp.dims with
          hashmap := NC_hashmapRemoveDim ncp.dims.hashmap d.name.cp } }) := by
    simp only [NC3_rename_dim, hid, hrw, hname, ne_eq, not_true_eq_false, if_false,
      Bool.false_eq_true, h4, hcast, helem, hc, hphase, set_NC_string, if_pos hlong, hne,
      not_false_eq_true, if_true]
  rw [key]
  refine ⟨rfl, rfl, rfl, inq_dimid_at E ncp ncid _ p d hid hinv hd hcanon, ?_⟩
  have hn0 : ncp.dims.nelems ≠ 0 := by omega
  have hn0' : ({ ncp.dims with hashmap := NC_hashmapRemoveDim ncp.dims.hashmap d.name.cp } :
      NC_dimarray).nelems ≠ 0 := hn0
  have hc1 : castInt (-1) = -1 := by decide
  have hc2 : ¬ ((-1 : Int) ≥ 0) := by decide
  simp only [NC3_inq_dimid, hid, ne_eq, not_true_eq_false, if_false, NC_finddim, hn0', hcanon,
    getDim_removeDim, hc1, hc2, if_true]

/-- C2, the failing input: the entity `a` in the restricted phase, renamed to
`bcd`. -/
theorem rename_too_long_witness :
    Inv datasetAData.dims ∧ NC_indef datasetAData = false ∧
    datasetAData.dims.value[0]? = some ⟨⟨1, [97]⟩, 5⟩ ∧
    NC3_rename_dim sampleEnv allocOk datasetAData 0 0 [98, 99, 100]
      = (NC_ENOTINDEFINE, { datasetAData with dims := { datasetAData.dims with hashmap := [] } }) ∧
    NC3_inq_dimid sampleEnv datasetAData 0 [97] = (NC_NOERR, some 0) ∧
    NC3_inq_dimid sampleEnv (NC3_rename_dim sampleEnv allocOk datasetAData 0 0 [98, 99, 100]).2 0
      [97] = (NC_EBADDIM, none) :=
  have h := rename_too_long_drops_index_entry sampleEnv allocOk datasetAData 0 0
    ⟨⟨1, [97]⟩, 5⟩ [98, 99, 100] [98, 99, 100]
    ⟨by decide, by decide, by decide, by decide, by decide⟩ rfl rfl rfl rfl rfl (by decide) rfl
    (by decide) rfl
  ⟨⟨by decide, by decide, by decide, by decide, by decide⟩, rfl, rfl, by decide, h.2.2.2.1,
    h.2.2.2.2⟩

/-- C3. In any sequence of define calls, the successful calls return, in call
order, the consecutive positions starting at the element count held before the
sequence (so `0, 1, 2, ...` on an initially empty registry): each successful
define returns the count held before it and raises the count by exactly one, a
failed one leaves the count alone, whatever the number of calls and however
often the array has to grow. -/
theorem define_returns_consecutive_positions (E : Env) (calls : List DefCall) (ncp : NC3_INFO) :
    ((defineAll E ncp calls).1.filter (fun r => r.1 == NC_NOERR)).map Prod.snd
      = (List.range ((defineAll E ncp calls).1.filter (fun r => r.1 == NC_NOERR)).length).map
          (fun k => some ((ncp.dims.nelems + k : Nat) : Int)) ∧
    (defineAll E ncp calls).2.dims.nelems
      = ncp.dims.nelems + ((defineAll E ncp calls).1.filter (fun r => r.1 == NC_NOERR)).length := by
  induction calls generalizing ncp with
  | nil => simp [defineAll]
  | cons c cs ih =>
    simp only [defineAll]
    by_cases hs : (NC3_def_dim E c.A ncp c.ncid c.name c.size).1 = NC_NOERR
    · obtain ⟨cn, a', -, hi, heq, -, -, -⟩ := def_dim_ok E c.A ncp c.ncid c.name c.size hs
      have hv := incr_value _ _ _ _ hi
      have hn : a'.nelems = ncp.dims.nelems + 1 := by simp [NC_dimarray.nelems, hv]
      have ih' := ih { ncp with dims := a' }
      rw [heq]
      simp only [hn] at ih'
      rw [List.filter_cons]
      simp only [beq_self_eq_true, if_true, List.map_cons, List.length_cons]
      rw [List.range_succ_eq_map, List.map_cons, List.map_map, ih'.1, ih'.2]
      refine ⟨?_, by omega⟩
      simp only [Nat.add_zero, List.cons.injEq, true_and]
      apply List.map_congr_left
      intro k _
      simp only [Function.comp, Nat.succ_eq_add_one]
      congr 2
      omega
    · have hf := def_dim_fail E c.A ncp c.ncid c.name c.size hs
      rw [Prod.ext_iff] at hf
      rw [List.filter_cons]
      have hb : ((NC3_def_dim E c.A ncp c.ncid c.name c.size).1 == NC_NOERR) = false := by
        simpa using hs
      simp only [hb, Bool.false_eq_true, if_false]
      rw [hf.2]
      exact ih ncp

/-- C3, witness: nine defines on the empty registry return the positions `0` to
`8`, the array growing three times. -/
theorem define_positions_witness :
    (defineAll sampleEnv (newDataset 0) nineDefines).1
      = [(0, some 0), (0, some 1), (0, some 2), (0, some 3), (0, some 4), (0, some 5),
         (0, some 6), (0, some 7), (0, some 8)] ∧
    (defineAll sampleEnv (newDataset 0) nineDefines).2.dims.nalloc = 12 ∧
    (defineAll sampleEnv (newDataset 0) nineDefines).2.dims.nelems
      = 0 + ((defineAll sampleEnv (newDataset 0) nineDefines).1.filter
          (fun r => r.1 == NC_NOERR)).length :=
  ⟨by decide, by decide,
    (define_returns_consecutive_positions sampleEnv nineDefines (newDataset 0)).2⟩

/-- C4. On a registry built from the empty one by define calls, let a define of
`name` with `size` succeed and return position `p`, and let any number of
further defines follow. Then lookup by `name` returns `p`, and inspect of `p`
returns the canonical form of `name` together with `size` when `size` is
bounded. -/
theorem define_then_lookup_and_inspect (E : Env) (ncp : NC3_INFO) (before after : List DefCall)
    (c : DefCall) (p : Int) (ncp1 : NC3_INFO) (hempty : ncp.dims = emptyDims)
    (hdef : NC3_def_dim E c.A (defineAll E ncp before).2 c.ncid c.name c.size
      = (NC_NOERR, some p, ncp1)) :
    NC3_inq_dimid E (defineAll E ncp1 after).2 c.ncid c.name = (NC_NOERR, some p) ∧
    ∃ canon, E.nc_utf8_normalize c.name = (NC_NOERR, canon) ∧
      (c.size ≠ NC_UNLIMITED →
        NC3_inq_dim E (defineAll E ncp1 after).2 c.ncid p
          = (NC_NOERR, some canon, some c.size)) := by
  have hinv0 : Inv (defineAll E ncp before).2.dims :=
    defineAll_inv E before ncp (hempty ▸ emptyDims_inv)
  have hs : (NC3_def_dim E c.A (defineAll E ncp before).2 c.ncid c.name c.size).1 = NC_NOERR := by
    rw [hdef]
  have hid : E.NC_check_id c.ncid = NC_NOERR := by
    by_contra h1
    simp only [NC3_def_dim, ne_eq, h1, not_false_eq_true, if_true] at hs
  obtain ⟨canon, a', hc, hi, heq, -, -, -⟩ := def_dim_ok E c.A _ c.ncid c.name c.size hs
  rw [heq] at hdef
  simp only [Prod.mk.injEq, Option.some.injEq, true_and] at hdef
  obtain ⟨hp, hncp1⟩ := hdef
  have hinv1 : Inv ncp1.dims := by
    have := def_dim_inv E c.A (defineAll E ncp before).2 c.ncid c.name c.size hinv0
    rw [heq] at this
    rw [← hncp1]
    exact this
  have hinv2 : Inv (defineAll E ncp1 after).2.dims := defineAll_inv E after ncp1 hinv1
  have hv := incr_value _ _ _ _ hi
  obtain ⟨ext, hext⟩ := defineAll_keeps E after ncp1
  have hget : (defineAll E ncp1 after).2.dims.value[(defineAll E ncp before).2.dims.nelems]?
      = some ⟨⟨canon.length, canon⟩, c.size⟩ := by
    rw [hext, ← hncp1]
    show (a'.value ++ ext)[_]? = _
    rw [hv, List.append_assoc]
    unfold NC_dimarray.nelems
    rw [List.getElem?_append_right (Nat.le_refl _)]
    simp
  subst hp
  refine ⟨inq_dimid_at E _ c.ncid c.name _ _ hid hinv2 hget hc, canon, hc, ?_⟩
  intro hb
  rw [inq_dim_at E _ c.ncid _ _ hid hinv2 hget]
  simp [hb]

/-- C4, witness: `x` is defined fourth, at position `3`, and nine further defines
follow, six of which succeed. -/
theorem define_then_lookup_and_inspect_witness :
    (newDataset 0).dims = emptyDims ∧
    NC3_def_dim sampleEnv xDefine.A (defineAll sampleEnv (newDataset 0) threeDefines).2
      xDefine.ncid xDefine.name xDefine.size = (NC_NOERR, some 3, datasetFour) ∧
    (defineAll sampleEnv datasetFour nineDefines).2.dims.nelems = 10 ∧
    NC3_inq_dimid sampleEnv (defineAll sampleEnv datasetFour nineDefines).2 xDefine.ncid
      xDefine.name = (NC_NOERR, some 3) ∧
    NC3_inq_dim sampleEnv (defineAll sampleEnv datasetFour nineDefines).2 0 3
      = (NC_NOERR, some [120], some 7) :=
  ⟨rfl, by decide, by decide,
    (define_then_lookup_and_inspect sampleEnv (newDataset 0) threeDefines nineDefines xDefine 3
      datasetFour rfl (by decide)).1,
    by decide⟩

/-- C5, as amended. On a registry satisfying the invariants, let position `p`
hold an entity `d` whose name is its own canonical form, and let the rename of
`p` to `b` succeed (in the definition phase, or in the restricted phase when the
canonical form of `b` fits the buffer). Then lookup of the old name reports
not-found, lookup of `b` returns `p`, and inspect of `p` reports the canonical
form of `b` with the size of `d` when that size is bounded and with the live
record count when `d` is the unbounded entity. -/
theorem rename_round_trip (E : Env) (A : Alloc) (ncp : NC3_INFO) (ncid : Int) (p : Nat)
    (d : NC_dim) (b : CString) (hinv : Inv ncp.dims) (hd : ncp.dims.value[p]? = some d)
    (hcanon : E.nc_utf8_normalize d.name.cp = (NC_NOERR, d.name.cp))
    (hok : (NC3_rename_dim E A ncp ncid p b).1 = NC_NOERR) :
    NC3_inq_dimid E (NC3_rename_dim E A ncp ncid p b).2 ncid d.name.cp = (NC_EBADDIM, none) ∧
    NC3_inq_dimid E (NC3_rename_dim E A ncp ncid p b).2 ncid b = (NC_NOERR, some (p : Int)) ∧
    ∃ c, E.nc_utf8_normalize b = (NC_NOERR, c) ∧
      NC3_inq_dim E (NC3_rename_dim E A ncp ncid p b).2 ncid p
        = (NC_NOERR, some c, some (if d.size = NC_UNLIMITED then ncp.numrecs else d.size)) := by
  have hid := rename_ok_handle E A ncp ncid p b hok
  obtain ⟨d', c, str, he, hc, hf, hstr, hfit, heq, hnum⟩ := rename_ok E A ncp ncid p b hok
  have hp := lt_nelems_of_get hd
  have hmax := hinv.max
  have hM : NC_MAX_DIMS = 1024 := rfl
  have hcast : castSizeT (p : Int) = p := castSizeT_of_nat p (by omega)
  rw [hcast] at he heq
  have hdd : d' = d := by
    have := elem_some _ _ _ he
    rw [hd] at this
    exact (Option.some.inj this).symm
  subst hdd
  have hnot := not_mem_of_finddim E hinv b c hc hf
  have hinv' : Inv (NC3_rename_dim E A ncp ncid p b).2.dims := by
    rw [heq]
    exact renamed_inv ncp.dims p d' str hinv hd (hstr ▸ hnot) (hstr ▸ hfit)
  have hget : (NC3_rename_dim E A ncp ncid p b).2.dims.value[p]?
      = some { d' with name := str } := by
    rw [heq]
    show (ncp.dims.value.set p _)[p]? = _
    exact List.getElem?_set_self hp
  have hold : d'.name.cp ∉ (NC3_rename_dim E A ncp ncid p b).2.dims.value.map
      (fun d => d.name.cp) := by
    intro hmem
    obtain ⟨e, he', hen⟩ := List.mem_map.mp hmem
    obtain ⟨j, hj, hje⟩ := List.getElem_of_mem he'
    have hje' : (NC3_rename_dim E A ncp ncid p b).2.dims.value[j]? = some e := by
      rw [List.getElem?_eq_getElem hj, hje]
    by_cases hjp : j = p
    · subst hjp
      rw [hget] at hje'
      have : e.name.cp = c := by
        rw [← Option.some.inj hje']
        exact hstr
      apply hnot
      rw [← this, hen]
      exact List.mem_map.mpr ⟨d', List.getElem?_mem hd, rfl⟩
    · have hje2 : ncp.dims.value[j]? = some e := by
        rw [heq] at hje'
        have : (ncp.dims.value.set p { d' with name := str })[j]? = some e := hje'
        rw [List.getElem?_set_ne (Ne.symm hjp)] at this
        exact this
      exact hjp (hinv.pos_inj j p e d' hje2 hd hen)
  refine ⟨inq_dimid_absent E _ ncid _ _ hid hinv' hcanon hold,
    inq_dimid_at E _ ncid b p _ hid hinv' hget (by rw [hc, hstr]), c, hc, ?_⟩
  rw [inq_dim_at E _ ncid p _ hid hinv' hget, hnum]
  simp [hstr]

/-- C5, witness: the entity `a` of size `5`, renamed to `b` in the restricted
phase. -/
theorem rename_round_trip_witness :
    Inv datasetAData.dims ∧ datasetAData.dims.value[0]? = some ⟨⟨1, [97]⟩, 5⟩ ∧
    sampleEnv.nc_utf8_normalize [97] = (NC_NOERR, [97]) ∧
    (NC3_rename_dim sampleEnv allocOk datasetAData 0 0 [98]).1 = NC_NOERR ∧
    NC3_inq_dimid sampleEnv (NC3_rename_dim sampleEnv allocOk datasetAData 0 0 [98]).2 0 [97]
      = (NC_EBADDIM, none) ∧
    NC3_inq_dimid sampleEnv (NC3_rename_dim sampleEnv allocOk datasetAData 0 0 [98]).2 0 [98]
      = (NC_NOERR, some 0) ∧
    NC3_inq_dim sampleEnv (NC3_rename_dim sampleEnv allocOk datasetAData 0 0 [98]).2 0 0
      = (NC_NOERR, some [98], some 5) :=
  have h := rename_round_trip sampleEnv allocOk datasetAData 0 0 ⟨⟨1, [97]⟩, 5⟩ [98]
    ⟨by decide, by decide, by decide, by decide, by decide⟩ rfl rfl (by decide)
  ⟨⟨by decide, by decide, by decide, by decide, by decide⟩, rfl, rfl, by decide, h.1, h.2.1,
    by decide⟩

/-- C5, counterexample. The unbounded entity `a` sits at position `0` of a
dataset with five records; after the successful rename to `b`, inspect of
position `0` reports the size `5`, not the size `NC_UNLIMITED` the entity
holds. -/
theorem rename_round_trip_counterexample :
    datasetRec.dims.value[0]? = some ⟨⟨1, [97]⟩, NC_UNLIMITED⟩ ∧
    (NC3_rename_dim sampleEnv allocOk datasetRec 0 0 [98]).1 = NC_NOERR ∧
    NC3_inq_dim sampleEnv (NC3_rename_dim sampleEnv allocOk datasetRec 0 0 [98]).2 0 0
      = (NC_NOERR, some [98], some 5) ∧
    (5 : Nat) ≠ NC_UNLIMITED := by
  decide

/-- C6. In the definition phase, with a valid handle and a valid name, a define
of the unbounded size on a registry that already holds an unbounded entity
fails with `NC_EUNLIMIT`, writes no position and leaves the dataset, hence the
element count and every name and size, as it was. -/
theorem second_unlimited_rejected (E : Env) (A : Alloc) (ncp : NC3_INFO) (ncid : Int)
    (name : CString) (hid : E.NC_check_id ncid = NC_NOERR) (hindef : NC_indef ncp = true)
    (hname : E.NC_check_name name = NC_NOERR)
    (hu : ∃ d ∈ ncp.dims.value, d.size = NC_UNLIMITED) :
    NC3_def_dim E A ncp ncid name NC_UNLIMITED = (NC_EUNLIMIT, none, ncp) := by
  have hfind : (find_NC_Udim ncp.dims).1 ≠ -1 := by
    intro h
    obtain ⟨d, hd, hsz⟩ := hu
    exact (find_NC_Udim_eq_neg_one _).mp h d hd hsz
  simp only [NC3_def_dim, hid, hindef, hname, ne_eq, not_true_eq_false, if_false,
    dimsize_unlimited, Bool.false_eq_true, Bool.true_eq_false, hfind, not_false_eq_true,
    and_self, if_true]

/-- C6, witness: a second unbounded entity `b` is asked for after the unbounded
entity `a`. -/
theorem second_unlimited_rejected_witness :
    sampleEnv.NC_check_id 0 = NC_NOERR ∧ NC_indef datasetRec = true ∧
    sampleEnv.NC_check_name [98] = NC_NOERR ∧
    (∃ d ∈ datasetRec.dims.value, d.size = NC_UNLIMITED) ∧
    NC3_def_dim sampleEnv allocOk datasetRec 0 [98] NC_UNLIMITED
      = (NC_EUNLIMIT, none, datasetRec) :=
  ⟨rfl, rfl, rfl, by decide,
    second_unlimited_rejected sampleEnv allocOk datasetRec 0 [98] rfl rfl rfl (by decide)⟩

/-- C7. In every registry reached from the empty registry by any history of
define and rename calls, successful or failed, the number of entities whose size
is `NC_UNLIMITED` is `0` or `1`. -/
theorem at_most_one_unlimited (E : Env) (ncp : NC3_INFO) (calls : List Call)
    (hempty : ncp.dims = emptyDims) :
    countUnlimited (runCalls E ncp calls).2.dims = 0 ∨
      countUnlimited (runCalls E ncp calls).2.dims = 1 := by
  have h0 : countUnlimited ncp.dims ≤ 1 := by rw [hempty]; decide
  have := runCalls_count E calls ncp h0
  omega

/-- C7, witness: a history that asks twice for an unbounded entity ends with
one. -/
theorem at_most_one_unlimited_witness :
    (newDataset 0).dims = emptyDims ∧
    (runCalls sampleEnv (newDataset 0) twoUnlimited).1
      = [NC_NOERR, NC_EUNLIMIT, NC_EBADDIM, NC_NOERR] ∧
    (countUnlimited (runCalls sampleEnv (newDataset 0) twoUnlimited).2.dims = 0 ∨
      countUnlimited (runCalls sampleEnv (newDataset 0) twoUnlimited).2.dims = 1) :=
  ⟨rfl, by decide, at_most_one_unlimited sampleEnv (newDataset 0) twoUnlimited rfl⟩

/-- C8, as amended. On a registry satisfying the invariants that holds an entity
whose canonical name is the canonical form of `name`, a define in the definition
phase with a valid handle, a valid name and a size within the format bound fails
with `NC_ENAMEINUSE` and leaves the dataset as it was, provided the earlier
checks let it through: the size is bounded or the registry has no unbounded
entity, and the registry is below the fixed maximum. -/
theorem define_name_in_use (E : Env) (A : Alloc) (ncp : NC3_INFO) (ncid : Int)
    (name c : CString) (size : Nat) (hinv : Inv ncp.dims)
    (hid : E.NC_check_id ncid = NC_NOERR) (hindef : NC_indef ncp = true)
    (hname : E.NC_check_name name = NC_NOERR)
    (hsize : dimsize_exceeds ncp.flags size = false)
    (hun : size = NC_UNLIMITED → ∀ d ∈ ncp.dims.value, d.size ≠ NC_UNLIMITED)
    (hmax : ncp.dims.nelems < NC_MAX_DIMS)
    (hc : E.nc_utf8_normalize name = (NC_NOERR, c))
    (hin : c ∈ ncp.dims.value.map (fun d => d.name.cp)) :
    NC3_def_dim E A ncp ncid name size = (NC_ENAMEINUSE, none, ncp) := by
  have h5 : ¬ (size = NC_UNLIMITED ∧ (find_NC_Udim ncp.dims).1 ≠ -1) := by
    rintro ⟨hs, hf⟩
    exact hf ((find_NC_Udim_eq_neg_one _).mpr (hun hs))
  have h6 : ¬ ncp.dims.nelems ≥ NC_MAX_DIMS := by omega
  have h7 : (NC_finddim E ncp.dims name).1 ≠ -1 := fun hf =>
    not_mem_of_finddim E hinv name c hc hf hin
  simp only [NC3_def_dim, hid, hindef, hname, ne_eq, not_true_eq_false, if_false, hsize,
    Bool.false_eq_true, Bool.true_eq_false, h5, h6, h7, not_false_eq_true, if_true]

/-- C8, witness: `define("a", 5)` then `define("a", 7)`; the count stays at
`1`. -/
theorem define_name_in_use_witness :
    Inv datasetA.dims ∧ datasetA.dims.nelems = 1 ∧
    [97] ∈ datasetA.dims.value.map (fun d => d.name.cp) ∧
    NC3_def_dim sampleEnv allocOk datasetA 0 [97] 7 = (NC_ENAMEINUSE, none, datasetA) :=
  ⟨⟨by decide, by decide, by decide, by decide, by decide⟩, by decide, by decide,
    define_name_in_use sampleEnv allocOk datasetA 0 [97] [97] 7
      ⟨by decide, by decide, by decide, by decide, by decide⟩ rfl rfl rfl (by decide)
      (by decide) (by decide) rfl (by decide)⟩

/-- C8, counterexample. The registry holds the unbounded entity `a`; a define of
`a` with the unbounded size, valid name and size within the bound, fails with
`NC_EUNLIMIT`, not with `NC_ENAMEINUSE`. -/
theorem define_name_in_use_counterexample :
    [97] ∈ datasetRec.dims.value.map (fun d => d.name.cp) ∧
    sampleEnv.nc_utf8_normalize [97] = (NC_NOERR, [97]) ∧
    sampleEnv.NC_check_name [97] = NC_NOERR ∧
    dimsize_exceeds datasetRec.flags NC_UNLIMITED = false ∧
    NC3_def_dim sampleEnv allocOk datasetRec 0 [97] NC_UNLIMITED
      = (NC_EUNLIMIT, none, datasetRec) ∧
    NC_EUNLIMIT ≠ NC_ENAMEINUSE := by
  decide

/-- C9, as amended. With a valid handle, in the definition phase and with a valid
name, a define of a size above `X_INT_MAX - 3` fails with `NC_EDIMSIZE` under the
32-bit variant; under the 64-bit-data variant the same define succeeds when the
size is at most `X_UINT64_MAX - 3`, the bound of that variant (the registry
satisfying the invariants and being below the fixed maximum, the canonical form
of the name being unused, allocations succeeding). -/
theorem dimsize_bound_by_variant (E : Env) (ncp : NC3_INFO) (ncid : Int) (name c : CString)
    (size f32 f64 : Nat) (hid : E.NC_check_id ncid = NC_NOERR) (hindef : NC_indef ncp = true)
    (hname : E.NC_check_name name = NC_NOERR)
    (h32 : f32 &&& NC_64BIT_DATA = 0 ∧ f32 &&& NC_64BIT_OFFSET = 0)
    (h64 : f64 &&& NC_64BIT_DATA ≠ 0) (hlo : X_INT_MAX - 3 < size) :
    NC3_def_dim E allocOk { ncp with flags := f32 } ncid name size
      = (NC_EDIMSIZE, none, { ncp with flags := f32 }) ∧
    (size ≤ X_UINT64_MAX - 3 → Inv ncp.dims → ncp.dims.nelems < NC_MAX_DIMS →
      E.nc_utf8_normalize name = (NC_NOERR, c) →
      c ∉ ncp.dims.value.map (fun d => d.name.cp) →
      (NC3_def_dim E allocOk { ncp with flags := f64 } ncid name size).1 = NC_NOERR ∧
      (NC3_def_dim E allocOk { ncp with flags := f64 } ncid name size).2.1
        = some (ncp.dims.nelems : Int)) := by
  have hindef32 : NC_indef { ncp with flags := f32 } = true := hindef
  have hindef64 : NC_indef { ncp with flags := f64 } = true := hindef
  constructor
  · have hx : dimsize_exceeds f32 size = true := by
      unfold dimsize_exceeds
      rw [if_neg (by simp [h32.1]), if_neg (by simp [h32.2])]
      simpa using hlo
    simp only [NC3_def_dim, hid, hindef32, hname, ne_eq, not_true_eq_false, if_false, hx,
      Bool.true_eq_false, if_true]
  · intro hhi hinv hmax hc hunused
    have hx : dimsize_exceeds f64 size = false := by
      unfold dimsize_exceeds
      rw [if_pos h64]
      have : ¬ size > X_UINT64_MAX - 3 := by omega
      simp [this]
    have hsz : size ≠ NC_UNLIMITED := by
      unfold NC_UNLIMITED
      unfold X_INT_MAX at hlo
      omega
    have h6 : ¬ ncp.dims.nelems ≥ NC_MAX_DIMS := by omega
    have h7 := finddim_absent E hinv name c hc hunused
    have hst := incr_status_ok ncp.dims
      (some ⟨⟨c.length, c⟩, size⟩)
    have hall : allocOk.array = true := rfl
    have key : NC3_def_dim E allocOk { ncp with flags := f64 } ncid name size
        = (NC_NOERR, some (castInt (incr_NC_dimarray true ncp.dims
              (some ⟨⟨c.length, c⟩, size⟩)).2.nelems - 1),
            { ncp with flags := f64, dims := (incr_NC_dimarray true ncp.dims
              (some ⟨⟨c.length, c⟩, size⟩)).2 }) := by
      simp only [NC3_def_dim, hid, hindef64, hname, ne_eq, not_true_eq_false, if_false, hx,
        Bool.false_eq_true, Bool.true_eq_false, hsz, false_and, h6, h7,
        new_NC_dim_ok E name c size hc, hall, hst]
    have hok : (NC3_def_dim E allocOk { ncp with flags := f64 } ncid name size).1 = NC_NOERR := by
      rw [key]
    obtain ⟨c', a', -, -, heq, -, -, -⟩ := def_dim_ok E allocOk _ ncid name size hok
    exact ⟨hok, by rw [heq]⟩

/-- C9, witness: the size `2^32` on the empty registry. -/
theorem dimsize_bound_by_variant_witness :
    X_INT_MAX - 3 < 4294967296 ∧ 4294967296 ≤ X_UINT64_MAX - 3 ∧
    (NC3_def_dim sampleEnv allocOk { newDataset 0 with flags := 0 } 0 [120] 4294967296
      = (NC_EDIMSIZE, none, { newDataset 0 with flags := 0 })) ∧
    (NC3_def_dim sampleEnv allocOk { newDataset 0 with flags := NC_64BIT_DATA } 0 [120]
      4294967296).1 = NC_NOERR :=
  have h := dimsize_bound_by_variant sampleEnv (newDataset 0) 0 [120] [120] 4294967296 0
    NC_64BIT_DATA rfl rfl rfl (by decide) (by decide) (by decide)
  ⟨by decide, by decide, h.1, (h.2 (by decide) emptyDims_inv (by decide) rfl (by decide)).1⟩

/-- C9, counterexample. The size `2^64 - 1` is above `X_INT_MAX - 3` and is
rejected with `NC_EDIMSIZE` by the 32-bit variant, yet the same define, in the
definition phase on an empty registry with a valid unused name, is rejected
with `NC_EDIMSIZE` under the 64-bit-data variant as well. -/
theorem dimsize_bound_counterexample :
    X_INT_MAX - 3 < 18446744073709551615 ∧
    (NC3_def_dim sampleEnv allocOk (newDataset 0) 0 [120] 18446744073709551615).1
      = NC_EDIMSIZE ∧
    NC3_def_dim sampleEnv allocOk (newDataset NC_64BIT_DATA) 0 [120] 18446744073709551615
      = (NC_EDIMSIZE, none, newDataset NC_64BIT_DATA) ∧
    NC_EDIMSIZE ≠ NC_NOERR := by
  decide

/-- C10, what the code does. With a valid handle and a non-empty registry, when
normalisation of the name fails with a status other than `-1`,
`NC3_inq_dimid` reports success and writes that status as the position. -/
theorem inq_dimid_success_on_encoding_error (E : Env) (ncp : NC3_INFO) (ncid : Int)
    (name : CString) (hid : E.NC_check_id ncid = NC_NOERR) (hne : ncp.dims.nelems ≠ 0)
    (hfail : (E.nc_utf8_normalize name).1 ≠ NC_NOERR)
    (hneg : (E.nc_utf8_normalize name).1 ≠ -1) :
    NC3_inq_dimid E ncp ncid name = (NC_NOERR, some (E.nc_utf8_normalize name).1) := by
  simp only [NC3_inq_dimid, hid, ne_eq, not_true_eq_false, if_false, NC_finddim, hne, hfail,
    not_false_eq_true, if_true, hneg]

/-- C10, the failing input: the name `\xff`, which is not UTF-8, looked up in a
registry holding `a`. -/
theorem inq_dimid_success_on_encoding_error_witness :
    sampleEnv.NC_check_id 0 = NC_NOERR ∧ datasetA.dims.nelems ≠ 0 ∧
    sampleEnv.nc_utf8_normalize [255] = (NC_EBADNAME, []) ∧
    NC3_inq_dimid sampleEnv datasetA 0 [255] = (NC_NOERR, some NC_EBADNAME) :=
  ⟨rfl, by decide, by decide,
    inq_dimid_success_on_encoding_error sampleEnv datasetA 0 [255] rfl (by decide)
      (by decide) (by decide)⟩

/-! ## Further lemmas -/

/-- The copying loop, when it ends without error, has stored a copy of every
remaining entity, with the same name text and size, after the copies already
stored. -/
theorem dup_copy_ok (E : Env) (A : Nat → Alloc) (l : List NC_dim) (i : Nat)
    (done r : List NC_dim)
    (hcanon : ∀ d ∈ l, E.nc_utf8_normalize d.name.cp = (NC_NOERR, d.name.cp))
    (h : dup_NC_dimarrayV.copy E A l i done = (NC_NOERR, r)) :
    r.map NC_dim.key = done.map NC_dim.key ++ l.map NC_dim.key := by
  induction l generalizing i done with
  | nil =>
    simp only [dup_NC_dimarrayV.copy, Prod.mk.injEq, true_and] at h
    simp [h]
  | cons d ds ih =>
    unfold dup_NC_dimarrayV.copy at h
    cases hd : dup_NC_dim E (A i) d with
    | none =>
      rw [hd] at h
      simp only [Prod.mk.injEq] at h
      exact absurd h.1 (by decide)
    | some e =>
      rw [hd] at h
      simp only at h
      obtain ⟨c, hc, he⟩ := new_NC_dim_some E (A i) d.name.cp d.size e hd
      rw [hcanon d (List.mem_cons_self _ _)] at hc
      have hcc : c = d.name.cp := by
        simp only [Prod.mk.injEq, true_and] at hc
        exact hc.symm
      have hkey : e.key = d.key := by
        rw [he, hcc]
        rfl
      rw [ih (i + 1) (done ++ [e]) (fun x hx => hcanon x (List.mem_cons_of_mem _ hx)) h]
      simp [hkey]

/-- The size test of the source is the comparison with `formatBound`. -/
theorem dimsize_exceeds_iff (flags size : Nat) :
    dimsize_exceeds flags size = true ↔ size > formatBound flags := by
  unfold dimsize_exceeds formatBound
  split_ifs <;> simp [sizeof_size_t, X_UINT64_MAX, X_UINT_MAX, X_INT_MAX]

/-- The status of an append is `NC_NOERR` or `NC_ENOMEM`. -/
theorem incr_status (ok : Bool) (a : NC_dimarray) (x : Option NC_dim) :
    (incr_NC_dimarray ok a x).1 = NC_NOERR ∨ (incr_NC_dimarray ok a x).1 = NC_ENOMEM := by
  unfold incr_NC_dimarray
  split_ifs <;> simp

/-- Once the size test is passed, the status of a define is not
`NC_EDIMSIZE`. -/
theorem def_dim_not_dimsize (E : Env) (A : Alloc) (ncp : NC3_INFO) (ncid : Int)
    (name : CString) (size : Nat) (h1 : E.NC_check_id ncid = NC_NOERR)
    (h2 : NC_indef ncp = true) (h3 : E.NC_check_name name = NC_NOERR)
    (h4 : dimsize_exceeds ncp.flags size = false) :
    (NC3_def_dim E A ncp ncid name size).1 ≠ NC_EDIMSIZE := by
  by_cases h5 : size = NC_UNLIMITED ∧ (find_NC_Udim ncp.dims).1 ≠ -1
  · simp only [NC3_def_dim, h1, h2, h3, h4, ne_eq, not_true_eq_false, if_false,
      Bool.false_eq_true, Bool.true_eq_false, if_pos h5]
    decide
  by_cases h6 : ncp.dims.nelems ≥ NC_MAX_DIMS
  · simp only [NC3_def_dim, h1, h2, h3, h4, ne_eq, not_true_eq_false, if_false,
      Bool.false_eq_true, Bool.true_eq_false, if_neg h5, if_pos h6]
    decide
  by_cases h7 : (NC_finddim E ncp.dims name).1 ≠ -1
  · simp only [NC3_def_dim, h1, h2, h3, h4, ne_eq, not_true_eq_false, if_false,
      Bool.false_eq_true, Bool.true_eq_false, if_neg h5, if_neg h6, if_pos h7]
    decide
  cases h8 : new_NC_dim E A name size with
  | none =>
    simp only [NC3_def_dim, h1, h2, h3, h4, ne_eq, not_true_eq_false, if_false,
      Bool.false_eq_true, Bool.true_eq_false, if_neg h5, if_neg h6, if_neg h7, h8]
    decide
  | some dimp =>
    by_cases h9 : (incr_NC_dimarray A.array ncp.dims (some dimp)).1 ≠ NC_NOERR
    · simp only [NC3_def_dim, h1, h2, h3, h4, ne_eq, not_true_eq_false, if_false,
        Bool.false_eq_true, Bool.true_eq_false, if_neg h5, if_neg h6, if_neg h7, h8, if_pos h9]
      rcases incr_status A.array ncp.dims (some dimp) with h | h
      · exact absurd h h9
      · rw [h]
        decide
    · simp only [NC3_def_dim, h1, h2, h3, h4, ne_eq, not_true_eq_false, if_false,
        Bool.false_eq_true, Bool.true_eq_false, if_neg h5, if_neg h6, if_neg h7, h8, if_neg h9]
      decide

/-- Where the scan stops short of the end, the entity there is unbounded and
every entity before it is bounded. -/
theorem scan_stops_at_first (l : List NC_dim) (s : Nat)
    (h : find_NC_Udim.scan l s < s + l.length) :
    (∃ d, l[find_NC_Udim.scan l s - s]? = some d ∧ d.size = NC_UNLIMITED) ∧
    (∀ (j : Nat) (e : NC_dim), j < find_NC_Udim.scan l s - s → l[j]? = some e →
      e.size ≠ NC_UNLIMITED) := by
  induction l generalizing s with
  | nil => simp [find_NC_Udim.scan] at h
  | cons d ds ih =>
    unfold find_NC_Udim.scan at h ⊢
    by_cases hd : d.size ≠ NC_UNLIMITED
    · rw [if_pos hd] at h ⊢
      have hge := scan_ge ds (s + 1)
      have hlt : find_NC_Udim.scan ds (s + 1) < s + 1 + ds.length := by
        simp only [List.length_cons] at h
        omega
      obtain ⟨⟨e, he, hes⟩, hbefore⟩ := ih (s + 1) hlt
      have hidx : find_NC_Udim.scan ds (s + 1) - s = (find_NC_Udim.scan ds (s + 1) - (s + 1)) + 1 := by
        omega
      constructor
      · refine ⟨e, ?_, hes⟩
        rw [hidx, List.getElem?_cons_succ]
        exact he
      · intro j x hj hx
        cases j with
        | zero =>
          simp only [List.getElem?_cons_zero, Option.some.injEq] at hx
          rw [← hx]
          exact hd
        | succ k =>
          simp only [List.getElem?_cons_succ] at hx
          exact hbefore k x (by omega) hx
    · rw [if_neg hd] at h ⊢
      constructor
      · refine ⟨d, ?_, by simpa using hd⟩
        simp
      · intro j x hj
        omega

/-! ## The claims, continued -/

/-- C11. With a valid handle, a rename on a read-only dataset fails with
`NC_EPERM` for every position and new name, and a define on a dataset that is
not in the definition phase fails with `NC_ENOTINDEFINE` for every name and
size; either call leaves the dataset, hence every name and the name index, as it
was. -/
theorem permission_and_mode_gating (E : Env) (A : Alloc) (ncp : NC3_INFO) (ncid : Int)
    (hid : E.NC_check_id ncid = NC_NOERR) :
    (NC_readonly ncp = true →
      ∀ (dimid : Int) (unewname : CString),
        NC3_rename_dim E A ncp ncid dimid unewname = (NC_EPERM, ncp)) ∧
    (NC_indef ncp = false →
      ∀ (name : CString) (size : Nat),
        NC3_def_dim E A ncp ncid name size = (NC_ENOTINDEFINE, none, ncp)) := by
  constructor
  · intro hro dimid unewname
    simp only [NC3_rename_dim, hid, ne_eq, not_true_eq_false, if_false, hro, if_true]
  · intro hmode name size
    simp only [NC3_def_dim, hid, ne_eq, not_true_eq_false, if_false, hmode, if_true]

/-- C11, witness: the read-only dataset holding `a`, out of the definition
phase. -/
theorem permission_and_mode_gating_witness :
    sampleEnv.NC_check_id 0 = NC_NOERR ∧ NC_readonly datasetARead = true ∧
    NC_indef datasetARead = false ∧
    NC3_rename_dim sampleEnv allocOk datasetARead 0 0 [98] = (NC_EPERM, datasetARead) ∧
    NC3_def_dim sampleEnv allocOk datasetARead 0 [98] 3 = (NC_ENOTINDEFINE, none, datasetARead) :=
  have h := permission_and_mode_gating sampleEnv allocOk datasetARead 0 rfl
  ⟨rfl, rfl, rfl, h.1 rfl 0 [98], h.2 rfl [98] 3⟩

/-- C12. With a valid handle, inspect of a position in use (a non-negative `int`
below the count) whose name fits its buffer reports the stored name, and
reports as size the stored size when the entity is bounded and the current
record count of the dataset when it is the unbounded entity. -/
theorem inspect_reports_name_and_size (E : Env) (ncp : NC3_INFO) (ncid : Int) (i : Nat)
    (d : NC_dim) (hid : E.NC_check_id ncid = NC_NOERR) (hint : isInt (i : Int))
    (hd : ncp.dims.value[i]? = some d) (hfit : d.name.cp.length ≤ d.name.nchars) :
    NC3_inq_dim E ncp ncid (i : Int)
      = (NC_NOERR, some d.name.cp,
          some (if d.size = NC_UNLIMITED then NC_get_numrecs ncp else d.size)) ∧
    (d.size ≠ NC_UNLIMITED → (NC3_inq_dim E ncp ncid (i : Int)).2.2 = some d.size) ∧
    (d.size = NC_UNLIMITED → (NC3_inq_dim E ncp ncid (i : Int)).2.2 = some ncp.numrecs) := by
  have hi := lt_nelems_of_get hd
  have hcast : castSizeT (i : Int) = i := by
    unfold isInt at hint
    exact castSizeT_of_nat i (by omega)
  have helem : elem_NC_dimarray ncp.dims i = some d := by
    rw [elem_NC_dimarray_eq]
    rw [if_neg (by omega)]
    exact hd
  have key : NC3_inq_dim E ncp ncid (i : Int)
      = (NC_NOERR, some d.name.cp,
          some (if d.size = NC_UNLIMITED then NC_get_numrecs ncp else d.size)) := by
    simp only [NC3_inq_dim, hid, ne_eq, not_true_eq_false, if_false, hcast, helem,
      List.take_of_length_le hfit]
  refine ⟨key, ?_, ?_⟩
  · intro hb
    rw [key]
    simp [hb]
  · intro hu
    rw [key]
    simp [hu, NC_get_numrecs]

/-- C12, witness: the unbounded entity `a` of a dataset with five records. -/
theorem inspect_reports_name_and_size_witness :
    datasetRec.dims.value[0]? = some ⟨⟨1, [97]⟩, NC_UNLIMITED⟩ ∧ datasetRec.numrecs = 5 ∧
    NC3_inq_dim sampleEnv datasetRec 0 0 = (NC_NOERR, some [97], some 5) ∧
    NC3_inq_dim sampleEnv datasetA 0 0 = (NC_NOERR, some [97], some 5) ∧
    (NC3_inq_dim sampleEnv datasetRec 0 ((0 : Nat) : Int)).2.2 = some datasetRec.numrecs :=
  ⟨by decide, by decide, by decide, by decide,
    (inspect_reports_name_and_size sampleEnv datasetRec 0 0 ⟨⟨1, [97]⟩, NC_UNLIMITED⟩ rfl
      (by decide) (by decide) (by decide)).2.2 rfl⟩

/-- C13. Positional access is bounds-checked. The array read of
`elem_NC_dimarray` is never out of range: for no `elem` does it yield
`Slot.outOfRange`. When `elem` is below the count the slot `elem` is read, it
holds an entity, and that entity is returned; for every other `elem` no slot is
read and `NULL` is returned. With a valid handle, inspect of an `int` position
succeeds exactly when `0 <= dimid < count`, and returns `NC_EBADDIM`, writing
nothing, for every other position: every negative one, every one at or above
the count, and every position on an empty registry. -/
theorem positional_access_bounds_checked (E : Env) (ncp : NC3_INFO) (ncid : Int)
    (hid : E.NC_check_id ncid = NC_NOERR) (hcount : countInRange ncp.dims) :
    (∀ elem : Nat, elem_NC_dimarray.read ncp.dims elem ≠ some Slot.outOfRange) ∧
    (∀ elem : Nat, elem < ncp.dims.nelems →
      ∃ d, ncp.dims.value[elem]? = some d ∧
        elem_NC_dimarray.read ncp.dims elem = some (Slot.entity d) ∧
        elem_NC_dimarray ncp.dims elem = some d) ∧
    (∀ elem : Nat, ¬ elem < ncp.dims.nelems →
      elem_NC_dimarray.read ncp.dims elem = none ∧ elem_NC_dimarray ncp.dims elem = none) ∧
    (∀ dimid : Int, isInt dimid →
      ((NC3_inq_dim E ncp ncid dimid).1 = NC_NOERR ↔ 0 ≤ dimid ∧ dimid < ncp.dims.nelems)) ∧
    (∀ dimid : Int, isInt dimid → ¬ (0 ≤ dimid ∧ dimid < ncp.dims.nelems) →
      NC3_inq_dim E ncp ncid dimid = (NC_EBADDIM, none, none)) ∧
    (ncp.dims.nelems = 0 → ∀ dimid : Int, NC3_inq_dim E ncp ncid dimid = (NC_EBADDIM, none, none)) := by
  have hread : ∀ elem : Nat, elem < ncp.dims.nelems →
      elem_NC_dimarray.read ncp.dims elem = some (ncp.dims.slot elem) := by
    intro elem he
    unfold elem_NC_dimarray.read
    rw [if_neg (by omega)]
  have hslot : ∀ elem : Nat, elem < ncp.dims.nelems →
      ∃ d, ncp.dims.value[elem]? = some d ∧ ncp.dims.slot elem = Slot.entity d := by
    intro elem he
    have he' : elem < ncp.dims.value.length := he
    refine ⟨ncp.dims.value[elem], List.getElem?_eq_getElem he', ?_⟩
    unfold NC_dimarray.slot
    rw [List.getElem?_eq_getElem he']
  have hrnone : ∀ elem : Nat, ¬ elem < ncp.dims.nelems →
      elem_NC_dimarray.read ncp.dims elem = none := by
    intro elem he
    unfold elem_NC_dimarray.read
    rw [if_pos (by omega)]
  have hget : ∀ elem : Nat, elem < ncp.dims.nelems →
      ∃ d, ncp.dims.value[elem]? = some d ∧
        elem_NC_dimarray.read ncp.dims elem = some (Slot.entity d) ∧
        elem_NC_dimarray ncp.dims elem = some d := by
    intro elem he
    obtain ⟨d, hd, hs⟩ := hslot elem he
    have hr : elem_NC_dimarray.read ncp.dims elem = some (Slot.entity d) := by
      rw [hread elem he, hs]
    refine ⟨d, hd, hr, ?_⟩
    unfold elem_NC_dimarray
    rw [hr]
  have hnone : ∀ elem : Nat, ¬ elem < ncp.dims.nelems → elem_NC_dimarray ncp.dims elem = none := by
    intro elem he
    unfold elem_NC_dimarray
    rw [hrnone elem he]
  have hbad : ∀ dimid : Int, ¬ castSizeT dimid < ncp.dims.nelems →
      NC3_inq_dim E ncp ncid dimid = (NC_EBADDIM, none, none) := by
    intro dimid hlt
    simp only [NC3_inq_dim, hid, ne_eq, not_true_eq_false, if_false, hnone _ hlt]
  have hcast : ∀ dimid : Int, isInt dimid →
      (castSizeT dimid < ncp.dims.nelems ↔ 0 ≤ dimid ∧ dimid < ncp.dims.nelems) := by
    intro dimid hint
    unfold isInt at hint
    unfold countInRange at hcount
    unfold castSizeT
    omega
  refine ⟨?_, hget, fun elem he => ⟨hrnone elem he, hnone elem he⟩, ?_, ?_, ?_⟩
  · intro elem
    by_cases he : elem < ncp.dims.nelems
    · obtain ⟨d, -, hr, -⟩ := hget elem he
      rw [hr]
      simp
    · rw [hrnone elem he]
      simp
  · intro dimid hint
    rw [← hcast dimid hint]
    constructor
    · intro hs
      by_contra hlt
      rw [hbad dimid hlt] at hs
      exact absurd hs (by decide)
    · intro hlt
      obtain ⟨d, -, -, hd⟩ := hget _ hlt
      simp only [NC3_inq_dim, hid, ne_eq, not_true_eq_false, if_false, hd]
  · intro dimid hint hout
    exact hbad dimid (fun h => hout ((hcast dimid hint).mp h))
  · intro h0 dimid
    exact hbad dimid (by omega)

/-- C13, witness: positions `0`, `-1` and `1` of the registry holding `a`, whose
slot `1` is out of range and is not read, and position `0` of the empty
registry. -/
theorem positional_access_witness :
    sampleEnv.NC_check_id 0 = NC_NOERR ∧ countInRange datasetA.dims ∧
    datasetA.dims.nelems = 1 ∧
    elem_NC_dimarray.read datasetA.dims 0 = some (Slot.entity ⟨⟨1, [97]⟩, 5⟩) ∧
    elem_NC_dimarray.read datasetA.dims 1 = none ∧
    elem_NC_dimarray.read datasetA.dims 1 ≠ some Slot.outOfRange ∧
    datasetA.dims.slot 1 = Slot.outOfRange ∧
    (NC3_inq_dim sampleEnv datasetA 0 0).1 = NC_NOERR ∧
    castSizeT (-1) = 18446744073709551615 ∧
    NC3_inq_dim sampleEnv datasetA 0 (-1) = (NC_EBADDIM, none, none) ∧
    NC3_inq_dim sampleEnv datasetA 0 1 = (NC_EBADDIM, none, none) ∧
    NC3_inq_dim sampleEnv (newDataset 0) 0 0 = (NC_EBADDIM, none, none) :=
  have h := positional_access_bounds_checked sampleEnv datasetA 0 rfl (by decide)
  ⟨rfl, by decide, by decide, by decide, by decide, h.1 1, by decide, by decide, by decide,
    h.2.2.2.2.1 (-1) (by decide) (by decide), h.2.2.2.2.1 1 (by decide) (by decide),
    by decide⟩

/-- C14. For a registry `ref` whose names are canonical (normalisation maps each
to itself), a successful `dup_NC_dimarrayV` leaves in `ncap` as many entities as
`ref` holds, and the entity at each position has the name text and the size of
the entity of `ref` at that position. -/
theorem duplicate_preserves_entities (E : Env) (arrayOk : Bool) (A : Nat → Alloc)
    (ncap ref : NC_dimarray)
    (hcanon : ∀ d ∈ ref.value, E.nc_utf8_normalize d.name.cp = (NC_NOERR, d.name.cp))
    (hok : (dup_NC_dimarrayV E arrayOk A ncap ref).1 = NC_NOERR) :
    (dup_NC_dimarrayV E arrayOk A ncap ref).2.nelems = ref.nelems ∧
    (∀ (i : Nat) (d : NC_dim), ref.value[i]? = some d →
      ∃ e, (dup_NC_dimarrayV E arrayOk A ncap ref).2.value[i]? = some e ∧
        e.name.cp = d.name.cp ∧ e.size = d.size) := by
  have hmap : (dup_NC_dimarrayV E arrayOk A ncap ref).2.value.map NC_dim.key
      = ref.value.map NC_dim.key := by
    unfold dup_NC_dimarrayV at hok ⊢
    by_cases h1 : ref.nelems ≠ 0 ∧ arrayOk = false
    · rw [if_pos h1] at hok
      have hne : NC_ENOMEM ≠ NC_NOERR := by decide
      exact absurd hok hne
    · rw [if_neg h1] at hok ⊢
      simp only [] at hok ⊢
      rcases hr : dup_NC_dimarrayV.copy E A ref.value 0 [] with ⟨st, r⟩
      rw [hr] at hok
      simp only [] at hok ⊢
      by_cases h2 : st ≠ NC_NOERR
      · rw [if_pos h2] at hok
        exact absurd hok h2
      · rw [if_neg h2]
        have hst : st = NC_NOERR := by simpa using h2
        subst hst
        have := dup_copy_ok E A ref.value 0 [] r hcanon hr
        simpa using this
  constructor
  · have := congrArg List.length hmap
    simpa [NC_dimarray.nelems] using this
  · intro i d hd
    have h1 : (ref.value.map NC_dim.key)[i]? = some d.key := by
      rw [List.getElem?_map, hd]
      rfl
    rw [← hmap, List.getElem?_map] at h1
    cases he : (dup_NC_dimarrayV E arrayOk A ncap ref).2.value[i]? with
    | none => rw [he] at h1; simp at h1
    | some e =>
      rw [he] at h1
      simp only [Option.map_some', Option.some.injEq, NC_dim.key, Prod.mk.injEq] at h1
      exact ⟨e, rfl, h1.1, h1.2⟩

/-- C14, witness: the registry at the end of the sample history, both entities
of which were renamed, is duplicated into an empty one. -/
theorem duplicate_preserves_entities_witness :
    sampleDims.value = [⟨⟨1, [102]⟩, 5⟩, ⟨⟨2, [100, 101]⟩, NC_UNLIMITED⟩] ∧
    (∀ d ∈ sampleDims.value, sampleEnv.nc_utf8_normalize d.name.cp = (NC_NOERR, d.name.cp)) ∧
    (dup_NC_dimarrayV sampleEnv true (fun _ => allocOk) emptyDims sampleDims)
      = (NC_NOERR, { nalloc := 2, hashmap := [], value := sampleDims.value }) ∧
    (dup_NC_dimarrayV sampleEnv true (fun _ => allocOk) emptyDims sampleDims).2.nelems
      = sampleDims.nelems :=
  ⟨by decide, by decide, by decide,
    (duplicate_preserves_entities sampleEnv true (fun _ => allocOk) emptyDims sampleDims
      (by decide) (by decide)).1⟩

/-- C15. With a valid handle, in the definition phase, with a valid name, a size
within the format bound and no unbounded conflict, a define on a registry that
holds `NC_MAX_DIMS` entities (or more) fails with `NC_EMAXDIMS` and leaves the
dataset as it was; hence the count of a registry built from the empty one by
define calls never exceeds `NC_MAX_DIMS`. -/
theorem define_at_ceiling_rejected (E : Env) :
    (∀ (A : Alloc) (ncp : NC3_INFO) (ncid : Int) (name : CString) (size : Nat),
      E.NC_check_id ncid = NC_NOERR → NC_indef ncp = true → E.NC_check_name name = NC_NOERR →
      dimsize_exceeds ncp.flags size = false →
      (size = NC_UNLIMITED → ∀ d ∈ ncp.dims.value, d.size ≠ NC_UNLIMITED) →
      ncp.dims.nelems ≥ NC_MAX_DIMS →
      NC3_def_dim E A ncp ncid name size = (NC_EMAXDIMS, none, ncp)) ∧
    (∀ (ncp : NC3_INFO) (calls : List DefCall), ncp.dims = emptyDims →
      (defineAll E ncp calls).2.dims.nelems ≤ NC_MAX_DIMS) := by
  constructor
  · intro A ncp ncid name size hid hindef hname hsize hun hfull
    have h5 : ¬ (size = NC_UNLIMITED ∧ (find_NC_Udim ncp.dims).1 ≠ -1) := by
      rintro ⟨hs, hf⟩
      exact hf ((find_NC_Udim_eq_neg_one _).mpr (hun hs))
    simp only [NC3_def_dim, hid, hindef, hname, ne_eq, not_true_eq_false, if_false, hsize,
      Bool.false_eq_true, Bool.true_eq_false, h5, hfull, if_true]
  · intro ncp calls hempty
    exact (defineAll_inv E calls ncp (hempty ▸ emptyDims_inv)).max

/-- C15, witness: a define on the full registry. -/
theorem define_at_ceiling_witness :
    fullDataset.dims.nelems = NC_MAX_DIMS ∧
    NC3_def_dim sampleEnv allocOk fullDataset 0 [120] 7 = (NC_EMAXDIMS, none, fullDataset) ∧
    (defineAll sampleEnv (newDataset 0) nineDefines).2.dims.nelems ≤ NC_MAX_DIMS :=
  have h := define_at_ceiling_rejected sampleEnv
  ⟨by simp [fullDataset, fullDims, NC_dimarray.nelems],
    h.1 allocOk fullDataset 0 [120] 7 rfl rfl rfl (by decide) (by intro h7; exact absurd h7 (by decide))
      (by simp [fullDataset, fullDims, NC_dimarray.nelems]),
    h.2 (newDataset 0) nineDefines rfl⟩

/-- C16. With a valid handle, in the definition phase and with a valid name,
`NC3_def_dim` returns `NC_EDIMSIZE` exactly when the size exceeds the bound of
the variant selected by the flags, `formatBound`; the bounds grow from the
32-bit variant to the 64-bit-offset and to the 64-bit-data variant, so a size
accepted by the size test of a narrower variant is accepted by that of each
wider one. -/
theorem dimsize_status_iff_bound (E : Env) (A : Alloc) (ncp : NC3_INFO) (ncid : Int)
    (name : CString) (size : Nat) (hid : E.NC_check_id ncid = NC_NOERR)
    (hindef : NC_indef ncp = true) (hname : E.NC_check_name name = NC_NOERR) :
    ((NC3_def_dim E A ncp ncid name size).1 = NC_EDIMSIZE ↔ size > formatBound ncp.flags) ∧
    (ncp.flags &&& NC_64BIT_DATA = 0 → ncp.flags &&& NC_64BIT_OFFSET = 0 →
      formatBound ncp.flags = 2 ^ 31 - 1 - 3) ∧
    (ncp.flags &&& NC_64BIT_DATA = 0 → ncp.flags &&& NC_64BIT_OFFSET ≠ 0 →
      formatBound ncp.flags = 2 ^ 32 - 1 - 3) ∧
    (ncp.flags &&& NC_64BIT_DATA ≠ 0 → formatBound ncp.flags = 2 ^ 64 - 1 - 3) ∧
    (∀ f32 fOff fData : Nat, f32 &&& NC_64BIT_DATA = 0 → f32 &&& NC_64BIT_OFFSET = 0 →
      fOff &&& NC_64BIT_DATA = 0 → fOff &&& NC_64BIT_OFFSET ≠ 0 → fData &&& NC_64BIT_DATA ≠ 0 →
      (dimsize_exceeds f32 size = false → dimsize_exceeds fOff size = false) ∧
      (dimsize_exceeds fOff size = false → dimsize_exceeds fData size = false)) := by
  refine ⟨?_, ?_, ?_, ?_, ?_⟩
  · rw [← dimsize_exceeds_iff]
    constructor
    · intro hs
      by_contra hx
      have hx' : dimsize_exceeds ncp.flags size = false := by simpa using hx
      exact def_dim_not_dimsize E A ncp ncid name size hid hindef hname hx' hs
    · intro hx
      simp only [NC3_def_dim, hid, hindef, hname, ne_eq, not_true_eq_false, if_false, hx,
        Bool.true_eq_false, if_true]
  · intro h1 h2
    simp [formatBound, h1, h2]
  · intro h1 h2
    simp [formatBound, h1, h2]
  · intro h1
    simp [formatBound, h1]
  · intro f32 fOff fData a1 a2 b1 b2 c1
    have e1 : formatBound f32 = 2147483644 := by simp [formatBound, a1, a2]
    have e2 : formatBound fOff = 4294967292 := by simp [formatBound, b1, b2]
    have e3 : formatBound fData = 18446744073709551612 := by simp [formatBound, c1]
    have key : ∀ f, dimsize_exceeds f size = false ↔ size ≤ formatBound f := by
      intro f
      have := dimsize_exceeds_iff f size
      constructor
      · intro h
        by_contra hc
        have : dimsize_exceeds f size = true := (dimsize_exceeds_iff f size).mpr (by omega)
        rw [h] at this
        exact absurd this (by decide)
      · intro h
        cases hx : dimsize_exceeds f size with
        | false => rfl
        | true =>
          have := (dimsize_exceeds_iff f size).mp hx
          omega
    rw [key, key, key, e1, e2, e3]
    constructor <;> intro h <;> omega

/-- C16, witness: the size `2^31` under the three variants. -/
theorem dimsize_status_witness :
    sampleEnv.NC_check_id 0 = NC_NOERR ∧
    (NC3_def_dim sampleEnv allocOk (newDataset 0) 0 [120] 2147483648).1 = NC_EDIMSIZE ∧
    (NC3_def_dim sampleEnv allocOk (newDataset 0) 0 [120] 2147483644).1 = NC_NOERR ∧
    (NC3_def_dim sampleEnv allocOk (newDataset NC_64BIT_OFFSET) 0 [120] 2147483648).1
      = NC_NOERR ∧
    (NC3_def_dim sampleEnv allocOk (newDataset (NC_64BIT_OFFSET + NC_64BIT_DATA)) 0 [120]
      4294967293).1 = NC_NOERR ∧
    ((NC3_def_dim sampleEnv allocOk (newDataset 0) 0 [120] 2147483648).1 = NC_EDIMSIZE ↔
      2147483648 > formatBound (newDataset 0).flags) :=
  ⟨rfl, by decide, by decide, by decide, by decide,
    (dimsize_status_iff_bound sampleEnv allocOk (newDataset 0) 0 [120] 2147483648 rfl rfl rfl).1⟩

/-- C17. `find_NC_Udim` returns `-1`, writing nothing, exactly when no entity of
the registry is unbounded (so on the empty registry); otherwise it returns the
lowest position whose entity has size `NC_UNLIMITED` and writes the entity at
that position to the out-parameter. -/
theorem find_NC_Udim_lowest (ncap : NC_dimarray) :
    ((find_NC_Udim ncap).1 = -1 ↔ ∀ d ∈ ncap.value, d.size ≠ NC_UNLIMITED) ∧
    ((find_NC_Udim ncap).1 = -1 → (find_NC_Udim ncap).2 = none) ∧
    ((find_NC_Udim ncap).1 ≠ -1 →
      ∃ (i : Nat) (d : NC_dim), find_NC_Udim ncap = ((i : Int), some d) ∧
        ncap.value[i]? = some d ∧ d.size = NC_UNLIMITED ∧
        ∀ (j : Nat) (e : NC_dim), j < i → ncap.value[j]? = some e → e.size ≠ NC_UNLIMITED) := by
  refine ⟨find_NC_Udim_eq_neg_one ncap, ?_, ?_⟩
  · unfold find_NC_Udim
    by_cases h0 : ncap.nelems = 0
    · simp [h0]
    · rw [if_neg h0]
      simp only []
      by_cases h1 : find_NC_Udim.scan ncap.value 0 ≥ ncap.nelems
      · simp [h1]
      · rw [if_neg h1]
        intro h
        simp only at h
        omega
  · intro hne
    unfold find_NC_Udim at hne ⊢
    by_cases h0 : ncap.nelems = 0
    · rw [if_pos h0] at hne
      exact absurd rfl hne
    · rw [if_neg h0] at hne ⊢
      simp only [] at hne ⊢
      by_cases h1 : find_NC_Udim.scan ncap.value 0 ≥ ncap.nelems
      · rw [if_pos h1] at hne
        exact absurd rfl hne
      · rw [if_neg h1]
        have hlt : find_NC_Udim.scan ncap.value 0 < 0 + ncap.value.length := by
          unfold NC_dimarray.nelems at h1
          omega
        obtain ⟨⟨d, hd, hds⟩, hbefore⟩ := scan_stops_at_first ncap.value 0 hlt
        simp only [Nat.sub_zero] at hd hbefore
        exact ⟨_, d, by rw [hd], hd, hds, hbefore⟩

/-- C17, witness: the unbounded entity of the sample registry is at position
`1`; a registry of bounded entities and the empty registry give `-1`. -/
theorem find_NC_Udim_witness :
    find_NC_Udim (runCalls sampleEnv (newDataset 0) sampleHistory).2.dims
      = (1, some ⟨⟨2, [100, 101]⟩, NC_UNLIMITED⟩) ∧
    find_NC_Udim datasetA.dims = (-1, none) ∧
    find_NC_Udim emptyDims = (-1, none) ∧
    ((find_NC_Udim emptyDims).1 = -1 ↔ ∀ d ∈ emptyDims.value, d.size ≠ NC_UNLIMITED) :=
  ⟨by decide, by decide, by decide, (find_NC_Udim_lowest emptyDims).1⟩

/-- C18. For a registry with `nelems <= nalloc`: a successful append of an entity
stores it at the index that was the count, raises the count by one and keeps
`nelems <= nalloc`, that index being below the new capacity; the capacity grows
by exactly `NC_ARRAY_GROWBY` when the array was unallocated or full and stays
as it was otherwise, so it never decreases; the entities held before keep their
positions; and a failed append leaves the registry as it was. -/
theorem append_capacity_bookkeeping (arrayOk : Bool) (ncap : NC_dimarray) (e : NC_dim)
    (hcap : ncap.nelems ≤ ncap.nalloc) :
    ((incr_NC_dimarray arrayOk ncap (some e)).1 = NC_NOERR →
      (incr_NC_dimarray arrayOk ncap (some e)).2.nelems = ncap.nelems + 1 ∧
      (incr_NC_dimarray arrayOk ncap (some e)).2.nelems
        ≤ (incr_NC_dimarray arrayOk ncap (some e)).2.nalloc ∧
      ncap.nelems < (incr_NC_dimarray arrayOk ncap (some e)).2.nalloc ∧
      (incr_NC_dimarray arrayOk ncap (some e)).2.value[ncap.nelems]? = some e ∧
      (∀ (i : Nat) (d : NC_dim), ncap.value[i]? = some d →
        (incr_NC_dimarray arrayOk ncap (some e)).2.value[i]? = some d) ∧
      (incr_NC_dimarray arrayOk ncap (some e)).2.nalloc
        = (if ncap.nalloc = 0 ∨ ncap.nelems = ncap.nalloc then ncap.nalloc + NC_ARRAY_GROWBY
           else ncap.nalloc) ∧
      ncap.nalloc ≤ (incr_NC_dimarray arrayOk ncap (some e)).2.nalloc) ∧
    ((incr_NC_dimarray arrayOk ncap (some e)).1 ≠ NC_NOERR →
      (incr_NC_dimarray arrayOk ncap (some e)).2 = ncap) := by
  refine ⟨?_, incr_fail arrayOk ncap (some e)⟩
  intro hok
  rcases hr : incr_NC_dimarray arrayOk ncap (some e) with ⟨st, a'⟩
  rw [hr] at hok
  simp only at hok
  subst hok
  have hv := incr_value arrayOk ncap a' e hr
  have hn : a'.nelems = ncap.nelems + 1 := by simp [NC_dimarray.nelems, hv]
  have halloc : a'.nalloc = (if ncap.nalloc = 0 ∨ ncap.nelems = ncap.nalloc
      then ncap.nalloc + NC_ARRAY_GROWBY else ncap.nalloc) := by
    unfold incr_NC_dimarray at hr
    by_cases h0 : ncap.nalloc = 0
    · rw [if_pos h0] at hr
      by_cases hA : arrayOk = false
      · rw [if_pos hA] at hr
        simp only [Prod.mk.injEq] at hr
        exact absurd hr.1 (by decide)
      · rw [if_neg hA] at hr
        simp only [Prod.mk.injEq, true_and] at hr
        rw [← hr, if_pos (Or.inl h0), h0]
        simp [incr_NC_dimarray.store]
    · rw [if_neg h0] at hr
      by_cases h1 : ncap.nelems + 1 > ncap.nalloc
      · rw [if_pos h1] at hr
        by_cases hA : arrayOk = false
        · rw [if_pos hA] at hr
          simp only [Prod.mk.injEq] at hr
          exact absurd hr.1 (by decide)
        · rw [if_neg hA] at hr
          simp only [Prod.mk.injEq, true_and] at hr
          rw [← hr, if_pos (Or.inr (by omega))]
          simp [incr_NC_dimarray.store]
      · rw [if_neg h1] at hr
        simp only [Prod.mk.injEq, true_and] at hr
        rw [← hr, if_neg (by omega)]
        simp [incr_NC_dimarray.store]
  have hG : NC_ARRAY_GROWBY = 4 := rfl
  have hge : ncap.nelems + 1 ≤ a'.nalloc := by
    rw [halloc]
    split_ifs with hc
    · omega
    · omega
  refine ⟨hn, ?_, ?_, ?_, ?_, halloc, ?_⟩
  · show a'.nelems ≤ a'.nalloc
    omega
  · show ncap.nelems < a'.nalloc
    omega
  · rw [hv]
    unfold NC_dimarray.nelems
    rw [List.getElem?_append_right (Nat.le_refl _)]
    simp
  · intro i d hd
    rw [hv]
    rw [List.getElem?_append_left (List.getElem?_eq_some_iff.mp hd).1]
    exact hd
  · rw [halloc]
    split_ifs <;> omega

/-- C18, witness: the fifth append fills a full array of four slots. -/
theorem append_capacity_witness :
    datasetFour.dims.nelems = 4 ∧ datasetFour.dims.nalloc = 4 ∧
    (incr_NC_dimarray true datasetFour.dims (some ⟨⟨1, [121]⟩, 9⟩)).1 = NC_NOERR ∧
    (incr_NC_dimarray true datasetFour.dims (some ⟨⟨1, [121]⟩, 9⟩)).2.nalloc = 8 ∧
    (incr_NC_dimarray true datasetFour.dims (some ⟨⟨1, [121]⟩, 9⟩)).2.nelems
      = datasetFour.dims.nelems + 1 ∧
    incr_NC_dimarray false datasetFour.dims (some ⟨⟨1, [121]⟩, 9⟩)
      = (NC_ENOMEM, datasetFour.dims) :=
  ⟨by decide, by decide, by decide, by decide,
    ((append_capacity_bookkeeping true datasetFour.dims ⟨⟨1, [121]⟩, 9⟩ (by decide)).1
      (by decide)).1,
    by decide⟩

/-- C19, what the code does. Let a define pass the checks that precede the name
lookup (valid handle, definition phase, valid name, size within the bound, no
unbounded conflict, registry below the maximum) and let normalisation of the
name fail. On a non-empty registry, when the status of normalisation is not
`-1`, the define fails with `NC_ENAMEINUSE`; on an empty registry it fails with
`NC_ENOMEM`. In either case nothing is written and the dataset is as it was. -/
theorem define_on_normalize_failure (E : Env) (A : Alloc) (ncp : NC3_INFO) (ncid : Int)
    (name : CString) (size : Nat) (hid : E.NC_check_id ncid = NC_NOERR)
    (hindef : NC_indef ncp = true) (hname : E.NC_check_name name = NC_NOERR)
    (hsize : dimsize_exceeds ncp.flags size = false)
    (hun : size = NC_UNLIMITED → ∀ d ∈ ncp.dims.value, d.size ≠ NC_UNLIMITED)
    (hmax : ncp.dims.nelems < NC_MAX_DIMS)
    (hfail : (E.nc_utf8_normalize name).1 ≠ NC_NOERR) :
    (ncp.dims.nelems ≠ 0 → (E.nc_utf8_normalize name).1 ≠ -1 →
      NC3_def_dim E A ncp ncid name size = (NC_ENAMEINUSE, none, ncp)) ∧
    (ncp.dims.nelems = 0 → NC3_def_dim E A ncp ncid name size = (NC_ENOMEM, none, ncp)) := by
  have h5 : ¬ (size = NC_UNLIMITED ∧ (find_NC_Udim ncp.dims).1 ≠ -1) := by
    rintro ⟨hs, hf⟩
    exact hf ((find_NC_Udim_eq_neg_one _).mpr (hun hs))
  have h6 : ¬ ncp.dims.nelems ≥ NC_MAX_DIMS := by omega
  have hnew : new_NC_dim E A name size = none := by
    unfold new_NC_dim
    rcases hn : E.nc_utf8_normalize name with ⟨stat, c⟩
    rw [hn] at hfail
    simp only [ne_eq] at hfail ⊢
    rw [if_pos hfail]
  constructor
  · intro hne hneg
    have h7 : (NC_finddim E ncp.dims name).1 ≠ -1 := by
      unfold NC_finddim
      rw [if_neg hne]
      rcases hn : E.nc_utf8_normalize name with ⟨stat, c⟩
      rw [hn] at hfail hneg
      simp only [ne_eq] at hfail hneg ⊢
      rw [if_pos hfail]
      exact hneg
    simp only [NC3_def_dim, hid, hindef, hname, ne_eq, not_true_eq_false, if_false, hsize,
      Bool.false_eq_true, Bool.true_eq_false, h5, h6, h7, not_false_eq_true, if_true]
  · intro h0
    have h7 : ¬ (NC_finddim E ncp.dims name).1 ≠ -1 := by
      unfold NC_finddim
      rw [if_pos h0]
      simp
    simp only [NC3_def_dim, hid, hindef, hname, ne_eq, not_true_eq_false, if_false, hsize,
      Bool.false_eq_true, Bool.true_eq_false, h5, h6, h7, hnew]

/-- C19, the failing input: with the normaliser out of memory, the define of `b`
on the registry holding `a` is answered with `NC_ENAMEINUSE`, and on the empty
registry with `NC_ENOMEM`. -/
theorem define_on_normalize_failure_witness :
    oomEnv.NC_check_name [98] = NC_NOERR ∧
    oomEnv.nc_utf8_normalize [98] = (NC_ENOMEM, []) ∧
    [98] ∉ datasetA.dims.value.map (fun d => d.name.cp) ∧
    NC3_def_dim oomEnv allocOk datasetA 0 [98] 3 = (NC_ENAMEINUSE, none, datasetA) ∧
    NC3_def_dim oomEnv allocOk (newDataset 0) 0 [98] 3 = (NC_ENOMEM, none, newDataset 0) :=
  ⟨rfl, rfl, by decide,
    (define_on_normalize_failure oomEnv allocOk datasetA 0 [98] 3 rfl rfl rfl (by decide)
      (by intro h; exact absurd h (by decide)) (by decide) (by decide)).1 (by decide) (by decide),
    (define_on_normalize_failure oomEnv allocOk (newDataset 0) 0 [98] 3 rfl rfl rfl (by decide)
      (by intro h; exact absurd h (by decide)) (by decide) (by decide)).2 rfl⟩

/-- C20. On a registry satisfying the invariants, with a valid handle, a writable
dataset and a valid name, a rename to a name whose canonical form is in use
fails with `NC_ENAMEINUSE` and leaves the dataset as it was, whatever the
position: in particular when the name in use is the current name of the entity
being renamed, and when the position is invalid (the name check precedes the
position check, so the status is not `NC_EBADDIM`). -/
theorem rename_name_in_use (E : Env) (A : Alloc) (ncp : NC3_INFO) (ncid : Int)
    (unewname c : CString) (hinv : Inv ncp.dims) (hid : E.NC_check_id ncid = NC_NOERR)
    (hrw : NC_readonly ncp = false) (hname : E.NC_check_name unewname = NC_NOERR)
    (hc : E.nc_utf8_normalize unewname = (NC_NOERR, c))
    (hin : c ∈ ncp.dims.value.map (fun d => d.name.cp)) :
    (∀ dimid : Int, NC3_rename_dim E A ncp ncid dimid unewname = (NC_ENAMEINUSE, ncp)) ∧
    (∀ (p : Nat) (d : NC_dim), ncp.dims.value[p]? = some d → d.name.cp = c →
      NC3_rename_dim E A ncp ncid (p : Int) unewname = (NC_ENAMEINUSE, ncp)) ∧
    (∀ dimid : Int, elem_NC_dimarray ncp.dims (castSizeT dimid) = none →
      (NC3_rename_dim E A ncp ncid dimid unewname).1 ≠ NC_EBADDIM) := by
  have h4 : (NC_finddim E ncp.dims unewname).1 ≠ -1 := fun hf =>
    not_mem_of_finddim E hinv unewname c hc hf hin
  have key : ∀ dimid : Int, NC3_rename_dim E A ncp ncid dimid unewname = (NC_ENAMEINUSE, ncp) := by
    intro dimid
    simp only [NC3_rename_dim, hid, hrw, hname, ne_eq, not_true_eq_false, if_false,
      Bool.false_eq_true, h4, not_false_eq_true, if_true]
  refine ⟨key, fun p d _ _ => key p, ?_⟩
  intro dimid _
  rw [key dimid]
  have hne : NC_ENAMEINUSE ≠ NC_EBADDIM := by decide
  exact hne

/-- C20, witness: the entity `a` at position `0` renamed to `a`, and a rename of
the invalid position `7` to `a`. -/
theorem rename_name_in_use_witness :
    Inv datasetA.dims ∧ datasetA.dims.value[0]? = some ⟨⟨1, [97]⟩, 5⟩ ∧
    NC3_rename_dim sampleEnv allocOk datasetA 0 0 [97] = (NC_ENAMEINUSE, datasetA) ∧
    elem_NC_dimarray datasetA.dims (castSizeT 7) = none ∧
    NC3_rename_dim sampleEnv allocOk datasetA 0 7 [97] = (NC_ENAMEINUSE, datasetA) ∧
    NC3_rename_dim sampleEnv allocOk datasetA 0 7 [98] = (NC_EBADDIM, datasetA) :=
  have h := rename_name_in_use sampleEnv allocOk datasetA 0 [97] [97]
    ⟨by decide, by decide, by decide, by decide, by decide⟩ rfl rfl rfl rfl (by decide)
  ⟨⟨by decide, by decide, by decide, by decide, by decide⟩, by decide, h.1 0, by decide, h.1 7,
    by decide⟩

end NCDim
